import Mathlib

/-!
Verification development for the `homer` multi-agent orchestrator
(ProfVex/homer).  The definitions below are shallow embeddings of the
JavaScript sources:

  * `lib/tasks.js`  — PRD loading/saving, `nextStory`, verification runner
  * `lib/engine.js` — `HomerEngine`: status events, signal detection,
                      buffer trimming, reroute budget, task picking
  * `lib/memory.js` — the learning memory store (solutions / rules
                      confidence arithmetic, closed-DB guards)
  * `lib/dag.js`    — `buildGraph` / `topoLayers` (Kahn layering)

Modelling conventions, used throughout:

  * JS strings are modelled as `List Char` where character-level slicing
    is involved (`slice(-n)`, regex scans), and as `String` where only
    equality/containment matters.  JS `str.slice(-n)` is `jsSliceLast n`.
  * JS numbers are modelled as `Nat`/`Int`/`ℚ` — every quantity these
    claims touch is an integer or a small decimal fraction for which
    rational arithmetic agrees with the source's float arithmetic on the
    operations performed.
  * JS `Array.prototype.sort` is stable (ES2019); a stable sort's output
    is uniquely determined by the comparator, so it is embedded as
    `List.insertionSort`, which is stable.
  * Fallible operations return `Option`.
-/

/-! ## Shared helpers (JS primitives) -/

/-- JS `str.slice(-n)`: the last `n` characters (the whole string when it
is shorter than `n`). -/
def jsSliceLast (n : Nat) (s : List Char) : List Char :=
  s.drop (s.length - n)

/-- JS `a || b` on strings: `b` when `a` is empty (falsy), else `a`. -/
def jsOrStr (a b : List Char) : List Char :=
  if a = [] then b else a

/-- JS `hay.includes(needle)` on strings: substring containment. -/
def jsIncludes (hay needle : List Char) : Prop :=
  needle <:+: hay

instance (hay needle : List Char) : Decidable (jsIncludes hay needle) := by
  unfold jsIncludes; infer_instance

/-- Index of the first occurrence of `needle` in `hay`, if any
(JS `hay.indexOf(needle)` restricted to found/not-found). -/
def jsIndexOf (hay needle : List Char) : Option Nat :=
  match hay with
  | [] => if needle = [] then some 0 else none
  | _ :: t =>
    if needle.isPrefixOf hay then some 0
    else (jsIndexOf t needle).map (· + 1)

/-- Suffix of `hay` following the first occurrence of `needle`, if any. -/
def afterFirst (hay needle : List Char) : Option (List Char) :=
  match hay with
  | [] => if needle = [] then some [] else none
  | _ :: t =>
    if needle.isPrefixOf hay then some (hay.drop needle.length)
    else afterFirst t needle

/-- JSON / JS whitespace characters (space, tab, line feed, carriage
return), as trimmed by `String.prototype.trim` on the inputs at hand. -/
def isWsChar (c : Char) : Bool :=
  c = ' ' || c = '\t' || c = '\n' || c = '\r'

/-- JS `str.trim()`. -/
def jsTrim (s : List Char) : List Char :=
  ((s.dropWhile (isWsChar ·)).reverse.dropWhile (isWsChar ·)).reverse

/-! ## `lib/tasks.js` — `nextStory` (claim C7)

Source (part_008:61-66):
```js
export function nextStory(prd) {
  const incomplete = prd.userStories
    .filter((s) => !s.passes)
    .sort((a, b) => (a.priority || 99) - (b.priority || 99));
  return incomplete[0] || null;
}
```
-/

/-- One user story of a PRD.  `priority` is `none` when the JSON field is
absent; fields of the story object not examined by `nextStory` /
`markStoryFailed` (title, description, acceptance criteria) are carried
as plain data. -/
structure Story where
  id : String
  title : String
  description : String
  acceptanceCriteria : List String
  priority : Option Nat
  passes : Bool
  notes : Option String
deriving DecidableEq, Repr, Inhabited

/-- PRD: the `userStories` array. -/
structure PRD where
  userStories : List Story
deriving DecidableEq, Repr

/-- JS `s.priority || 99`: `undefined` and the number `0` are both falsy,
so a missing priority AND a priority of `0` are replaced by `99`. -/
def jsPriority (s : Story) : Nat :=
  match s.priority with
  | none => 99
  | some p => if p = 0 then 99 else p

/-- Effective priority as the claim words it: only a MISSING priority is
treated as `99`; a present priority (including `0`) is used as is.
Stated from the spec sentence, for comparison against `jsPriority`. -/
def specPriority (s : Story) : Nat :=
  match s.priority with
  | none => 99
  | some p => p

/-- `nextStory(prd)`: filter stories with falsy `passes`, stable-sort
ascending by `jsPriority`, return the first (or `none`). -/
def nextStory (prd : PRD) : Option Story :=
  (List.insertionSort (fun a b => jsPriority a ≤ jsPriority b)
    (prd.userStories.filter (fun s => !s.passes))).head?

/-- First element of a list attaining the minimal key, ties broken by
list position (what a stable ascending sort puts first). -/
def firstMinBy (k : Story → Nat) : List Story → Option Story
  | [] => none
  | a :: l =>
    match firstMinBy k l with
    | none => some a
    | some m => if k a ≤ k m then some a else some m

/-! ## `lib/dag.js` — `buildGraph` / `topoLayers` (claim C10)

`getDeps(issue)` (github.js) parses a `Depends on: #1, #2` line out of the
issue body; its result is carried here as the `deps` field, since C10 is
about the layering algorithm over whatever edges `getDeps` produced. -/

/-- An issue as seen by `dag.js`: its number and the dependency numbers
extracted by `getDeps`. -/
structure DagIssue where
  number : Int
  deps : List Int
deriving DecidableEq, Repr

/-- Key set of the `nodes` map built by `buildGraph`: first occurrence
keeps its position, later duplicates only overwrite the value. -/
def mapSetKeys (issues : List DagIssue) : List Int :=
  issues.foldl (fun ks i => if i.number ∈ ks then ks else ks ++ [i.number]) []

/-- `children` adjacency of `buildGraph`: for each issue in list order,
each of its dependency occurrences `d` with `d` a known node pushes the
issue's number onto `children[d]`. -/
def childrenOf (issues : List DagIssue) (p : Int) : List Int :=
  if p ∈ mapSetKeys issues then
    issues.foldl
      (fun acc i => acc ++ (i.deps.filter (fun d => d = p)).map (fun _ => i.number)) []
  else []

/-- Initial `inDegree` map of `topoLayers`: for each issue in list order
(later duplicates overwrite), the number of its deps that are nodes. -/
def inDegreeInit (issues : List DagIssue) : Int → Nat :=
  issues.foldl
    (fun f i => fun n =>
      if n = i.number then (i.deps.filter (fun d => d ∈ mapSetKeys issues)).length
      else f n)
    (fun _ => 0)

/-- One decrement pass: for each `num` of the emitted layer, each child
`c` gets `inDegree[c] = (inDegree.get(c) || 1) - 1` (the JS `|| 1` turns
an existing `0` into `1` before subtracting). -/
def decLayer (children : Int → List Int) (layer : List Int) (inDeg : Int → Nat) :
    Int → Nat :=
  layer.foldl
    (fun d num =>
      (children num).foldl
        (fun d' child => fun n =>
          if n = child then (if d' child = 0 then 1 else d' child) - 1 else d' n)
        d)
    inDeg

/-- Unvisited in-degree-0 nodes of one round. -/
def zerosOf (inDeg : Int → Nat) (unvisited : List Int) : List Int :=
  unvisited.filter (fun n => inDeg n = 0)

/-- The raw layer of one round: the in-degree-0 nodes, or — circular
dependencies — all remaining nodes. -/
def layerUOf (inDeg : Int → Nat) (unvisited : List Int) : List Int :=
  if zerosOf inDeg unvisited = [] then unvisited else zerosOf inDeg unvisited

/-- The emitted layer: `layer.sort((a, b) => a - b)`. -/
def layerOf (inDeg : Int → Nat) (unvisited : List Int) : List Int :=
  List.insertionSort (fun a b => a ≤ b) (layerUOf inDeg unvisited)

/-- The `while (visited.size < nodes.size)` loop of `topoLayers`:
`unvisited` is the insertion-ordered key list minus visited nodes.  Each
round emits `layerOf`, decrements children, and recurses on the rest. -/
def kahnLoop (children : Int → List Int) (inDeg : Int → Nat) (unvisited : List Int) :
    List (List Int) :=
  if h : unvisited = [] then []
  else
    layerOf inDeg unvisited ::
      kahnLoop children (decLayer children (layerOf inDeg unvisited) inDeg)
        (unvisited.filter (fun n => n ∉ layerOf inDeg unvisited))
termination_by unvisited.length
decreasing_by
  simp only [List.length_filter_lt_length_iff_exists]
  have hsub : List.Sublist (layerUOf inDeg unvisited) unvisited := by
    rw [layerUOf]; split
    · exact List.Sublist.refl _
    · exact List.filter_sublist _
  have hne : layerUOf inDeg unvisited ≠ [] := by
    rw [layerUOf]; split
    · exact h
    · assumption
  obtain ⟨x, xs, hxe⟩ := List.exists_cons_of_ne_nil hne
  have hx : x ∈ layerUOf inDeg unvisited := by rw [hxe]; exact List.mem_cons_self x xs
  refine ⟨x, hsub.mem hx, ?_⟩
  simp only [layerOf, List.mem_insertionSort, Bool.not_eq_false, decide_eq_true_eq,
    Decidable.not_not]
  exact hx

/-- `topoLayers(issues).layers`. -/
def topoLayers (issues : List DagIssue) : List (List Int) :=
  kahnLoop (childrenOf issues) (inDegreeInit issues) (mapSetKeys issues)

/-! ## `lib/engine.js` — ANSI stripping

Source (part_001:241-243):
```js
function stripAnsi(s) {
  return s.replace(/\x1b\[[0-9;]*[a-zA-Z]/g, "").replace(/\x1b\][^\x07]*\x07/g, "");
}
```
The two global replaces are embedded as two sequential left-to-right
scanners.  The character classes `[0-9;]` and `[a-zA-Z]` are disjoint, so
the greedy `[0-9;]*` has no backtracking; `[^\x07]*\x07` matches up to
the first BEL. -/

/-- Parameter characters of a CSI sequence. -/
def isCsiParam (c : Char) : Bool :=
  ('0' ≤ c && c ≤ '9') || c = ';'

/-- ASCII letter (the final byte class `[a-zA-Z]`). -/
def isAsciiAlpha (c : Char) : Bool :=
  ('a' ≤ c && c ≤ 'z') || ('A' ≤ c && c ≤ 'Z')

mutual

/-- Remove every match of `\x1b\[[0-9;]*[a-zA-Z]`, scanning left to
right. -/
def stripCsi : List Char → List Char
  | [] => []
  | '\x1b' :: rest => stripCsiEsc rest
  | c :: rest => c :: stripCsi rest
termination_by s => 2 * s.length
decreasing_by all_goals simp_arith

/-- State after an ESC: a following `[` opens a candidate sequence. -/
def stripCsiEsc : List Char → List Char
  | '[' :: rest => stripCsiBody rest []
  | rest => '\x1b' :: stripCsi rest
termination_by s => 2 * s.length + 1
decreasing_by all_goals simp_arith

/-- Inside `ESC [`: munch parameter bytes; a letter completes the match
(everything munched is dropped), anything else emits the candidate
literally and rescans from the offending character. -/
def stripCsiBody : List Char → List Char → List Char
  | [], acc => '\x1b' :: '[' :: acc.reverse
  | c :: rest, acc =>
    if isCsiParam c then stripCsiBody rest (c :: acc)
    else if isAsciiAlpha c then stripCsi rest
    else '\x1b' :: '[' :: acc.reverse ++ stripCsi (c :: rest)
termination_by s _ => 2 * s.length + 1
decreasing_by all_goals simp_arith

end

mutual

/-- Remove every match of `\x1b\][^\x07]*\x07`, scanning left to
right. -/
def stripOsc : List Char → List Char
  | [] => []
  | '\x1b' :: rest => stripOscEsc rest
  | c :: rest => c :: stripOsc rest
termination_by s => 2 * s.length
decreasing_by all_goals simp_arith

/-- State after an ESC: a following `]` opens a candidate sequence. -/
def stripOscEsc : List Char → List Char
  | ']' :: rest => stripOscBody rest []
  | rest => '\x1b' :: stripOsc rest
termination_by s => 2 * s.length + 1
decreasing_by all_goals simp_arith

/-- Inside `ESC ]`: munch to the first BEL; with no BEL the candidate is
emitted literally (no BEL remains, so no further match is possible in
it). -/
def stripOscBody : List Char → List Char → List Char
  | [], acc => '\x1b' :: ']' :: acc.reverse
  | c :: rest, acc =>
    if c = '\x07' then stripOsc rest
    else stripOscBody rest (c :: acc)
termination_by s _ => 2 * s.length + 1
decreasing_by all_goals simp_arith

end

/-- `stripAnsi`: CSI removal, then OSC removal. -/
def stripAnsi (s : List Char) : List Char :=
  stripOsc (stripCsi s)

/-! ## `lib/engine.js` — agent status events (claim C2)

Source (part_001:881-885):
```js
_setStatus(agent, status) {
  const prev = agent.status === status ? null : agent.status;
  this.emit("agent:status", { id: agent.id, status, prev });
  this._emitState();
}
```
and the `_handleDone` entry (part_001:579-583):
```js
_handleDone(agent) {
  agent.status = "verifying";
  agent.verifyAttempts++;
  this._setStatus(agent, "verifying");
  ...
```
Every call site of `_setStatus` assigns `agent.status` first, in the same
way. -/

/-- Agent status values. -/
inductive Status where
  | working | verifying | done | blocked | failed | rerouted | exited | killed
deriving DecidableEq, Repr, Inhabited

/-- The slice of the agent record that `_setStatus` / `_handleDone`
read and write. -/
structure EAgent where
  id : String
  status : Status
  verifyAttempts : Nat
deriving DecidableEq, Repr

/-- An `agent:status{id, status, prev|null}` event. -/
structure StatusEvent where
  id : String
  status : Status
  prev : Option Status
deriving DecidableEq, Repr

/-- `_setStatus(agent, status)`: the emitted event, with `prev` computed
from the agent's `status` field as it stands at call time. -/
def setStatusEvent (a : EAgent) (status : Status) : StatusEvent :=
  { id := a.id, status := status
    prev := if a.status = status then none else some a.status }

/-- Entry of `_handleDone`: `agent.status = "verifying"` and the attempt
increment happen BEFORE `_setStatus(agent, "verifying")` is called. -/
def handleDoneEnter (a : EAgent) : EAgent × StatusEvent :=
  let a' := { a with status := Status.verifying, verifyAttempts := a.verifyAttempts + 1 }
  (a', setStatusEvent a' Status.verifying)

/-! ## `lib/engine.js` — signal detection (claim C4)

Source (part_001:502-514), the PTY `onData` handler after appending the
chunk and trimming:
```js
if (agent.status !== "working") return;
const tail = stripAnsi(agent.outputBuffer).slice(-500);
if (tail.includes("HOMER_DONE")) this._handleDone(agent);
else if (tail.includes("HOMER_BLOCKED")) {
  const m = tail.match(/HOMER_BLOCKED[: ]*(.*)/);
  this._handleBlocked(agent, m ? m[1].trim() : "unknown");
}
```
-/

/-- A detected completion signal. -/
inductive Signal where
  | done
  | blocked (reason : List Char)
deriving DecidableEq, Repr

/-- Line terminators that the regex `.` does not match (the signal
windows at hand contain none of the rarer ` / `). -/
def isLineTerm (c : Char) : Bool :=
  c = '\n' || c = '\r'

/-- Capture group of `tail.match(/HOMER_BLOCKED[: ]*(.*)/)` followed by
`.trim()`, for a tail containing the token: text after the first
occurrence of `HOMER_BLOCKED`, minus leading colons/spaces, up to the
end of the line, trimmed.  The `"unknown"` fallback of the source is kept
for the (unreachable) no-match case. -/
def blockedReason (tail : List Char) : List Char :=
  match afterFirst tail ("HOMER_BLOCKED".toList) with
  | none => "unknown".toList
  | some after =>
    jsTrim ((after.dropWhile (fun c => c = ':' || c = ' ')).takeWhile (fun c => !isLineTerm c))

/-- The `onData` signal scan: nothing unless the status is `working`;
otherwise scan the ANSI-stripped last 500 characters, `HOMER_DONE`
first, `HOMER_BLOCKED` only in the `else` branch. -/
def detectSignal (status : Status) (outputBuffer : List Char) : Option Signal :=
  if status ≠ Status.working then none
  else
    let tail := jsSliceLast 500 (stripAnsi outputBuffer)
    if jsIncludes tail ("HOMER_DONE".toList) then some Signal.done
    else if jsIncludes tail ("HOMER_BLOCKED".toList) then
      some (Signal.blocked (blockedReason tail))
    else none

/-! ## `lib/tasks.js` — verification output truncation (claim C5)

Source (part_008:192-214), one command execution:
```js
try {
  const output = execSync(cmd, {...});
  results.push({ name, cmd, passed: true, output: output.slice(-500), errorKey: null });
} catch (e) {
  const stderr = (e.stderr || "").slice(-500);
  const stdout = (e.stdout || "").slice(-500);
  const output = (stderr || stdout || e.message || "unknown error").slice(-800);
  results.push({ name, cmd, passed: false, output, errorKey: _extractErrorKey(name, output) });
}
```
-/

/-- Outcome of `execSync` for one verify command: success with captured
stdout, or failure with captured stderr/stdout and the error's
`message`. -/
inductive ExecOutcome where
  | ok (stdout : List Char)
  | err (stderr stdout message : List Char)
deriving DecidableEq, Repr

/-- Output stored in the check result. -/
def checkOutput : ExecOutcome → List Char
  | ExecOutcome.ok out => jsSliceLast 500 out
  | ExecOutcome.err se so msg =>
    let stderr500 := jsSliceLast 500 se
    let stdout500 := jsSliceLast 500 so
    jsSliceLast 800 (jsOrStr stderr500 (jsOrStr stdout500 (jsOrStr msg ("unknown error".toList))))

/-! ## `lib/engine.js` — buffer trimming (claim C1)

Source (part_001:896-906):
```js
_trimBuffer(agent) {
  if (agent.outputBuffer.length / 1024 > BUFFER_TRIM_KB) {      // 300
    try { this._extractAndStoreContext(agent); } catch {}
    const keep = BUFFER_KEEP_KB * 1024;                          // 128
    const tail = agent.outputBuffer.slice(-keep);
    const hist = agent.verifyHistory.map(h => h.outputSnippet).join("\n");
    agent.outputBuffer = hist + "\n" + tail;
  }
}
```
`_extractAndStoreContext` (part_001:908-949) ends in a call to
`recordContextCompaction(agent.id, taskKey(agent), {...})` — but
`lib/memory.js` does not define or export any `recordContextCompaction`
(see `memoryExports` below, transcribed from its `export` statements).
The name is `undefined` at the call site, so the call throws a
`TypeError`, which the `try {} catch {}` in `_trimBuffer` swallows: the
memory store receives nothing, and the trim proceeds. -/

/-- The named exports of `lib/memory.js`, in source order. -/
def memoryExports : List String :=
  ["initMemory", "closeMemory", "getDb",
   "recordVerification", "recordEpisode", "recordSuccess", "recordFailure",
   "updateFileKnowledge", "upsertRule", "strengthenRule", "weakenRule",
   "buildTaskMemory", "buildErrorContext", "buildRerouteContext", "buildRuleHints",
   "getTaskHistory", "getRulesForScope", "getRepoRules", "getHighRiskFiles",
   "getRecentFailures", "getFileKnowledge", "getVerificationEpisodes",
   "getErrorFileRelations", "getLastInjectedRuleIds",
   "extractMemories", "buildMemorySection", "consolidate", "memoryStats"]

/-- One entry of an agent's verify history (`_handleDone` failure path). -/
structure VerifyHistEntry where
  attempt : Nat
  errors : String
  outputSnippet : List Char
deriving DecidableEq, Repr

/-- The slice of the agent record that `_trimBuffer` reads and writes. -/
structure BufAgent where
  id : String
  taskKey : Option String
  outputBuffer : List Char
  verifyHistory : List VerifyHistEntry
deriving DecidableEq, Repr

/-- A `ContextCompaction` record as the spec describes it (what
`recordContextCompaction(agentId, taskKey, {filePaths, errors,
approachNote})` would store). -/
structure CompactionRecord where
  agentId : String
  taskKey : Option String
  filePaths : List (List Char)
  errors : List (List Char)
  approachNote : Option (List Char)
deriving DecidableEq, Repr

/-- `_trimBuffer`: over `BUFFER_TRIM_KB` KiB (`length / 1024 > 300`, i.e.
`length > 307200`), run extract-then-discard, then rebuild the buffer as
verify-history digest plus the last `128 KiB`.  Because
`recordContextCompaction` is missing from `lib/memory.js`, the extract
step's store write throws and is swallowed: the compaction store is
returned unchanged. -/
def trimBuffer (a : BufAgent) (store : List CompactionRecord) :
    BufAgent × List CompactionRecord :=
  if 307200 < a.outputBuffer.length then
    let keep := 128 * 1024
    let tail := jsSliceLast keep a.outputBuffer
    let hist := List.intercalate ('\n' :: []) (a.verifyHistory.map (·.outputSnippet))
    ({ a with outputBuffer := hist ++ '\n' :: tail }, store)
  else (a, store)

/-! ## `lib/engine.js` — reroute budget and the scheduler (claim C3)

Sources: `_reroute` (part_001:690-745), `_autoSpawnNext` / `_pickNextTask`
(part_001:749-807), `markStoryFailed` (part_008:94-100, note "keeps
passes=false, adds notes"), `decomposeStory` (part_008:331-343),
`buildSubtaskPrompt` (part_008:355-394).

Omissions, which no C3 statement depends on: the reroute hand-off text
written to the replacement agent's PTY (it blends `buildRerouteContext`
output from the memory DB), PTY wiring inside `_makeAgent`, and the
0.5-1.5 s `setTimeout` delays (the delayed callbacks are executed
in place). -/

/-- `MAX_REROUTES` (part_001:208). -/
def MAX_REROUTES : Nat := 2

/-- A sub-task produced by `decomposeStory`. -/
structure Subtask where
  id : String
  parentId : String
  title : String
  description : String
  criterion : String
  priority : Option Nat
  passes : Bool
deriving DecidableEq, Repr

/-- `decomposeStory(story)`: one sub-task per acceptance criterion iff
there are more than two criteria, else `null`. -/
def decomposeStory (story : Story) : Option (List Subtask) :=
  if story.acceptanceCriteria.length ≤ 2 then none
  else some <| (List.range story.acceptanceCriteria.length).zip story.acceptanceCriteria
    |>.map fun (i, ac) =>
      { id := story.id ++ "-" ++ toString (i + 1)
        parentId := story.id
        title := story.title ++ ": " ++ String.mk (ac.toList.take 60)
        description := story.description
        criterion := ac
        priority := story.priority
        passes := false }

/-- `buildSubtaskPrompt(subtask, parentStory, prd, siblingNotes)`. -/
def buildSubtaskPrompt (st : Subtask) (parentStory : Story)
    (siblingNotes : List String) : String :=
  let base :=
    ["Work on Sub-task " ++ st.id ++ ": " ++ st.title,
     "(Part of Story " ++ parentStory.id ++ ": " ++ parentStory.title ++ ")",
     "", "CONTEXT:", parentStory.description, "",
     "YOUR CRITERION (focus on THIS only):", "  ✓ " ++ st.criterion, ""]
  let sib :=
    if siblingNotes = [] then []
    else "ALREADY COMPLETED BY OTHER AGENTS:" ::
      siblingNotes.map (fun n => "  ✓ " ++ n) ++ [""]
  let remaining := parentStory.acceptanceCriteria.filter (fun ac => ac ≠ st.criterion)
  let rem :=
    if remaining = [] then []
    else "OTHER CRITERIA (for awareness, not your responsibility):" ::
      remaining.map (fun ac => "  - " ++ ac) ++ [""]
  let tailLines :=
    ["When your criterion is met and code compiles/passes:",
     "  1. Commit your changes: git add + git commit",
     "  2. Signal HOMER_DONE",
     "If stuck: signal HOMER_BLOCKED with reason.",
     "\nRead .homer/context.md first for existing code you must reuse."]
  String.intercalate "\n" (base ++ sib ++ rem ++ tailLines)

/-- `markStoryFailed(prdPath, prd, storyId, notes)`: sets `notes` on the
first story with the given id (when `notes` is truthy) and rewrites the
PRD file; `passes` is left untouched. -/
def markStoryFailed (prd : PRD) (storyId : String) (notes : String) : PRD :=
  { userStories :=
      match prd.userStories.findIdx? (fun s => s.id = storyId) with
      | none => prd.userStories
      | some i =>
        if notes = "" then prd.userStories
        else prd.userStories.set i { prd.userStories[i]! with notes := some notes } }

/-- Back-reference carried as a task's `_story`: the story or sub-task
the task was cut from (`_isSubtask` / `_parentId` flags included). -/
structure StoryRef where
  id : String
  title : String
  isSubtask : Bool
  parentId : Option String
deriving DecidableEq, Repr

/-- A work unit as handed around by the scheduler: the
`{number, title, body, _story}` object (the `number` field holds the
story/sub-task id or the tracker issue number, recoverable from the two
optional fields below). -/
structure WorkTask where
  title : String
  body : String
  story : Option StoryRef
  issueNumber : Option Int
deriving DecidableEq, Repr

/-- `taskKey(agent)` (part_001:251-255): `story:<id>` if the agent has a
story, else `issue:<number>`, else `null`. -/
def taskKeyOf : Option WorkTask → Option String
  | none => none
  | some t =>
    match t.story with
    | some sr => some ("story:" ++ sr.id)
    | none =>
      match t.issueNumber with
      | some n => some ("issue:" ++ toString n)
      | none => none

/-- The slice of an agent record the scheduler and `_reroute` use. -/
structure SAgent where
  id : String
  status : Status
  task : Option WorkTask
  verifyAttempts : Nat
deriving DecidableEq, Repr, Inhabited

/-- Per-parent sub-task ledger (`this.subtaskMap` entries). -/
structure SubtaskEntry where
  subtasks : List Subtask
  completed : List String
deriving DecidableEq, Repr

/-- Engine state touched by `_reroute` / `_autoSpawnNext` /
`_pickNextTask`.  `hasTool` stands for `this.activeTool` being set;
`issues` carries the ready-sorted, dependencies-met issue numbers that
`pickNextIssue` (github.js, shelling out to `gh`) would return in order,
of which the scheduler takes the first. -/
structure EngineState where
  auto : Bool
  hasTool : Bool
  repo : String
  maxAgents : Nat
  agents : List SAgent
  agentCounter : Nat
  taskRetryCounts : List (String × Nat)
  prd : Option PRD
  prdPathPresent : Bool
  subtaskMap : List (String × SubtaskEntry)
  issues : List Int
deriving Repr

/-- `this.taskRetryCounts.get(key) || 0`. -/
def lookupCount (counts : List (String × Nat)) (key : String) : Nat :=
  match counts.find? (fun kv => kv.1 = key) with
  | some kv => kv.2
  | none => 0

/-- `Map.set`: overwrite the existing entry, else append. -/
def setCount (counts : List (String × Nat)) (key : String) (v : Nat) :
    List (String × Nat) :=
  match counts.findIdx? (fun kv => kv.1 = key) with
  | some i => counts.set i (key, v)
  | none => counts ++ [(key, v)]

/-- Sub-task branch of `_pickNextTask`: first ledger entry (insertion
order) with an uncompleted sub-task whose parent story still exists. -/
def pickSubtask (prd : Option PRD) :
    List (String × SubtaskEntry) → Option WorkTask
  | [] => none
  | (parentId, entry) :: restMap =>
    match entry.subtasks.find? (fun st => !st.passes && !entry.completed.contains st.id) with
    | none => pickSubtask prd restMap
    | some st =>
      match (prd.map (·.userStories)).getD [] |>.find? (fun s => s.id = parentId) with
      | none => pickSubtask prd restMap
      | some parentStory =>
        let siblingNotes := (entry.subtasks.filter
          (fun s => entry.completed.contains s.id)).map (·.criterion)
        some { title := st.title
               body := buildSubtaskPrompt st parentStory siblingNotes
               story := some { id := st.id, title := st.title
                               isSubtask := true, parentId := some parentId }
               issueNumber := none }

/-- `_pickNextTask`: pending sub-tasks, else the next PRD story
(auto-decomposed when it has more than two criteria, which also stashes
the new ledger — hence the state in the result), else the next ready
issue. -/
def pickNextTask (s : EngineState) : Option WorkTask × EngineState :=
  match pickSubtask s.prd s.subtaskMap with
  | some t => (some t, s)
  | none =>
    match s.prd with
    | some prd =>
      match nextStory prd with
      | some story =>
        match decomposeStory story with
        | some subtasks =>
          let s' := { s with subtaskMap :=
            s.subtaskMap ++ [(story.id, { subtasks := subtasks, completed := [] })] }
          match subtasks with
          | [] => (none, s')
          | first :: _ =>
            (some { title := first.title
                    body := buildSubtaskPrompt first story []
                    story := some { id := first.id, title := first.title
                                    isSubtask := true, parentId := some story.id }
                    issueNumber := none }, s')
        | none =>
          (some { title := story.title, body := story.description
                  story := some { id := story.id, title := story.title
                                  isSubtask := false, parentId := none }
                  issueNumber := none }, s)
      | none => pickIssueBranch s
    | none => pickIssueBranch s
where
  /-- Issue-tracker branch: guarded by `this.opts.repo && this.issues.length`. -/
  pickIssueBranch (s : EngineState) : Option WorkTask × EngineState :=
    if s.repo ≠ "" ∧ s.issues ≠ [] then
      match s.issues.head? with
      | some n => (some { title := "", body := "", story := none, issueNumber := some n }, s)
      | none => (none, s)
    else (none, s)

/-- `spawnAgent(issue)` with a task in hand: bump the counter and push a
fresh `working` agent bound to the task (`_makeAgent`). -/
def spawnAgent (s : EngineState) (t : WorkTask) : EngineState :=
  { s with
    agentCounter := s.agentCounter + 1
    agents := s.agents ++
      [{ id := "agent-" ++ toString (s.agentCounter + 1), status := Status.working
         task := some t, verifyAttempts := 0 }] }

/-- Replace the first agent with the given id using `f`. -/
def updateAgent (agents : List SAgent) (aid : String) (f : SAgent → SAgent) :
    List SAgent :=
  match agents.findIdx? (fun a => a.id = aid) with
  | none => agents
  | some i => agents.set i (f agents[i]!)

/-- `_reroute(agent, reason)`: refuse once the task's reroute count has
reached `MAX_REROUTES` — the agent becomes `failed`, the backing story is
marked failed, and no replacement is produced by this path.  Below the
budget: bump the count, mark the dying agent `rerouted`, and spawn a
replacement for the same work unit.  Returns the new state and whether a
reroute happened. -/
def reroute (s : EngineState) (aid : String) (reason : String) :
    EngineState × Bool :=
  match s.agents.find? (fun a => a.id = aid) with
  | none => (s, false)
  | some a =>
    match taskKeyOf a.task with
    | none => (s, false)
    | some key =>
      let retries := lookupCount s.taskRetryCounts key
      if MAX_REROUTES ≤ retries then
        let prd' :=
          match (a.task.bind (·.story)), s.prd with
          | some sr, some prd =>
            if s.prdPathPresent then
              some (markStoryFailed prd sr.id
                ("Failed after " ++ toString (retries + 1) ++ " agents"))
            else s.prd
          | _, _ => s.prd
        ({ s with agents := updateAgent s.agents aid (fun x => { x with status := Status.failed })
                  prd := prd' }, false)
      else
        let replacement : WorkTask :=
          match a.task with
          | some t =>
            match t.story with
            | some sr => { title := sr.title, body := t.body, story := some sr
                           issueNumber := none }
            | none => t
          | none => { title := "", body := "", story := none, issueNumber := none }
        let s₁ := { s with
          taskRetryCounts := setCount s.taskRetryCounts key (retries + 1)
          agents := updateAgent s.agents aid (fun x => { x with status := Status.rerouted }) }
        (spawnAgent s₁ replacement, true)

/-- Spawn loop of `_autoSpawnNext`: up to `toSpawn` picks, stopping at
the first empty pick (state changes made by the pick are kept). -/
def spawnLoop : Nat → EngineState → EngineState
  | 0, s => s
  | n + 1, s =>
    match pickNextTask s with
    | (none, s') => s'
    | (some t, s') => spawnLoop n (spawnAgent s' t)

/-- `_autoSpawnNext()`: in auto mode with a tool, top the pool back up to
`maxAgents` active (working/verifying) agents, drawing fresh tasks. -/
def autoSpawnNext (s : EngineState) : EngineState :=
  if !s.auto || !s.hasTool then s
  else
    let active := s.agents.filter
      (fun a => a.status = Status.working ∨ a.status = Status.verifying)
    if s.maxAgents ≤ active.length then s
    else spawnLoop (s.maxAgents - active.length) s

/-! ## `lib/memory.js` — the learning memory store (claims C6, C9)

Rows carry the columns the claims and their update paths touch; pure
text columns whose content no claim examines (`fix_summary` reflections,
timestamps) are omitted or carried as plain strings, as noted at each
operation.  Row lists are kept in insertion order, which is the
`created_at` order the source's `ORDER BY created_at` queries use.  The
constant `ALPHA = 0.3` of the EMA updates is written `3/10 : ℚ`. -/

/-- SQLite `LIKE '%pat%'`: containment, ASCII case-insensitive. -/
def likeContains (key pat : String) : Bool :=
  decide (pat.toLower.toList <:+: key.toLower.toList)

/-- Index of the last element satisfying `p` (what
`ORDER BY created_at DESC LIMIT 1` selects from insertion-ordered
rows). -/
def findLastIdx? (p : α → Bool) (l : List α) : Option Nat :=
  match (l.reverse.findIdx? p) with
  | some i => some (l.length - 1 - i)
  | none => none

/-- Update the row at index `i`, when present. -/
def updRow (l : List α) (i : Nat) (f : α → α) : List α :=
  match l[i]? with
  | some x => l.set i (f x)
  | none => l

/-- A `solutions` row. -/
structure Solution where
  error_key : String
  error_text : String
  confidence : ℚ
  attempts : Nat
  resolved : Bool
  task_key : Option String
  fix_files : Option (List String)
deriving DecidableEq, Repr

/-- One entry of the structured `errors` array stored on a `task_runs`
row. -/
structure ErrRec where
  check : String
  error_key : String
  output : String
deriving DecidableEq, Repr

/-- A `task_runs` row. -/
structure TaskRun where
  task_key : String
  agent_id : String
  tool_id : Option String
  outcome : String
  attempts : Nat
  files_touched : List String
  errors : List ErrRec
  notes : Option String
deriving DecidableEq, Repr

/-- A `repo_rules` row. -/
structure RuleRow where
  id : Nat
  scope : String
  rule : String
  confidence : ℚ
  source : Option String
  hits : Nat
  misses : Nat
deriving DecidableEq, Repr

/-- One check entry of a `verification_episodes.checks` array. -/
structure EpisodeCheck where
  name : String
  passed : Bool
  error_key : Option String
  output : Option String
deriving DecidableEq, Repr

/-- A `verification_episodes` row. -/
structure Episode where
  task_key : Option String
  agent_id : String
  attempt : Nat
  passed : Bool
  checks : List EpisodeCheck
  files : List String
deriving DecidableEq, Repr

/-- An `error_file_relations` row (relation is always `caused_by`). -/
structure ErrFileRel where
  error_key : String
  file_path : String
  occurrences : Nat
deriving DecidableEq, Repr

/-- A `file_knowledge` row (the `imports`/`exports` columns, untouched by
these operations, are omitted). -/
structure FileKnow where
  path : String
  touch_count : Nat
  last_error : Option String
  last_fix : Option String
  cochanges : List String
deriving DecidableEq, Repr

/-- The open database. -/
structure Store where
  files : List FileKnow
  solutions : List Solution
  runs : List TaskRun
  rules : List RuleRow
  episodes : List Episode
  relations : List ErrFileRel
  nextRuleId : Nat
deriving DecidableEq, Repr

/-- One check result of `runVerification` as `recordVerification`
receives it. -/
structure CheckResult where
  name : String
  cmd : String
  passed : Bool
  output : String
  errorKey : Option String
deriving DecidableEq, Repr

/-- A `runVerification` result. -/
structure VerifyResult where
  passed : Bool
  results : List CheckResult
deriving DecidableEq, Repr

/-- `upsertRule(scope, rule, confidence, source)`: a `UNIQUE(scope,
rule)` match gets `confidence = min(confidence + 0.1, 1.0)` and a
`COALESCE`d source; otherwise a fresh row with the given confidence and
`hits = misses = 0` is inserted. -/
def upsertRule (st : Store) (scope rule : String) (confidence : ℚ)
    (source : Option String) : Store :=
  match st.rules.findIdx? (fun r => r.scope = scope && r.rule = rule) with
  | some i =>
    { st with rules := updRow st.rules i (fun r =>
        { r with confidence := min (r.confidence + 1/10) 1
                 source := match source with | some s => some s | none => r.source }) }
  | none =>
    { st with
      rules := st.rules ++
        [{ id := st.nextRuleId, scope := scope, rule := rule, confidence := confidence
           source := source, hits := 0, misses := 0 }]
      nextRuleId := st.nextRuleId + 1 }

/-- `_touchFile(filePath, lastError)`. -/
def touchFile (st : Store) (filePath : String) (lastError : Option String) : Store :=
  match st.files.findIdx? (fun f => f.path = filePath) with
  | some i =>
    { st with files := updRow st.files i (fun f =>
        match lastError with
        | some e => { f with touch_count := f.touch_count + 1, last_error := some e }
        | none => { f with touch_count := f.touch_count + 1 }) }
  | none =>
    { st with files := st.files ++
        [{ path := filePath, touch_count := 1, last_error := lastError
           last_fix := none, cochanges := [] }] }

/-- `_upsertSolution(errorKey, errorText, taskKey)` (skipped for a falsy
key at the call site below; a fresh row starts at the schema default
`confidence = 0.5`, `attempts = 1`, `resolved = 0`). -/
def upsertSolution (st : Store) (errorKey errorText : String) (tk : String) : Store :=
  match st.solutions.findIdx? (fun s => s.error_key = errorKey) with
  | some i =>
    { st with solutions := updRow st.solutions i (fun s =>
        { s with attempts := s.attempts + 1
                 error_text := errorText.take 500
                 task_key := some tk }) }
  | none =>
    { st with solutions := st.solutions ++
        [{ error_key := errorKey, error_text := errorText.take 500, confidence := 1/2
           attempts := 1, resolved := false, task_key := some tk, fix_files := none }] }

/-- `recordEpisode(agentId, taskKey, attempt, verifyResult, filesTouched)`
on an open store: append the episode row, then upsert a `caused_by`
relation (occurrences += 1 on duplicate) for every (failed check with an
error key) × file pair. -/
def recordEpisode (st : Store) (agentId : String) (tk : Option String) (attempt : Nat)
    (result : VerifyResult) (filesTouched : List String) : Store :=
  let checks := result.results.map fun r =>
    ({ name := r.name, passed := r.passed, error_key := r.errorKey,
       output := if r.passed then none else some (r.output.take 200) } : EpisodeCheck)
  let st := { st with episodes := st.episodes ++
    [{ task_key := tk, agent_id := agentId, attempt := attempt
       passed := result.passed, checks := checks, files := filesTouched }] }
  let failed := checks.filter (fun c => !c.passed && !(c.error_key.getD "" = ""))
  failed.foldl (fun st c =>
    filesTouched.foldl (fun st fp =>
      match st.relations.findIdx?
          (fun r => r.error_key = c.error_key.getD "" && r.file_path = fp) with
      | some i =>
        { st with relations := (updRow st.relations i
            (fun r => { r with occurrences := r.occurrences + 1 })) }
      | none =>
        { st with relations := st.relations ++
            [{ error_key := c.error_key.getD "", file_path := fp, occurrences := 1 }] })
      st)
    st

/-- `recordVerification` body (open store, truthy task key): episode,
structured errors, `task_runs` upsert (`attempts += 1` / insert at 1),
file touches, and a solution upsert per failed check. -/
def recordVerification (st : Store) (agentId : String) (tk : String)
    (result : VerifyResult) (filesTouched : List String) (toolId : Option String)
    (attempt : Nat) : Store :=
  let st := recordEpisode st agentId (some tk) attempt result filesTouched
  let failed := result.results.filter (fun r => !r.passed)
  let errors : List ErrRec := failed.map fun r =>
    { check := r.name
      error_key := if r.errorKey.getD "" = "" then r.name ++ ":unknown" else r.errorKey.getD ""
      output := r.output.take 500 }
  let st :=
    match findLastIdx? (fun run => run.agent_id = agentId && run.task_key = tk) st.runs with
    | some i =>
      { st with runs := updRow st.runs i (fun run =>
          { run with attempts := run.attempts + 1
                     files_touched := filesTouched
                     errors := errors
                     outcome := if result.passed then "passed" else "running" }) }
    | none =>
      { st with runs := st.runs ++
          [{ task_key := tk, agent_id := agentId, tool_id := toolId
             outcome := if result.passed then "passed" else "running"
             attempts := 1, files_touched := filesTouched, errors := errors
             notes := none }] }
  let st := filesTouched.foldl (fun st fp =>
    touchFile st fp
      (if failed.length > 0 then (errors.head?.map (fun e => e.output.take 200)) else none)) st
  errors.foldl (fun st e =>
    if e.error_key = "" then st else upsertSolution st e.error_key e.output tk) st

/-- Unordered index pairs `(i, j)` with `i < j`, in the source's loop
order. -/
def ordPairs : List α → List (α × α)
  | [] => []
  | x :: xs => xs.map (fun y => (x, y)) ++ ordPairs xs

/-- `_addCochange(filePath, cochangePath)`: push-then-`slice(0, 10)` on
the existing row's cochange list, when the row exists and the entry is
new. -/
def addCochange (st : Store) (filePath cochangePath : String) : Store :=
  match st.files.findIdx? (fun f => f.path = filePath) with
  | none => st
  | some i =>
    { st with files := updRow st.files i (fun f =>
        if cochangePath ∈ f.cochanges then f
        else { f with cochanges := (f.cochanges ++ [cochangePath]).take 10 }) }

/-- `_updateCochanges(filesTouched)`: link each unordered pair that
co-occurs in at least `COCHANGE_MIN_RUNS = 2` task runs. -/
def updateCochanges (st : Store) (filesTouched : List String) : Store :=
  (ordPairs filesTouched).foldl (fun st (a, b) =>
    let coCount := (st.runs.filter
      (fun run => a ∈ run.files_touched && b ∈ run.files_touched)).length
    if 2 ≤ coCount then addCochange (addCochange st a b) b a else st) st

/-- Step 1 of `recordSuccess`: set the latest matching `task_runs` row to
`outcome = 'passed'`, `attempts = verifyAttempts`. -/
def successRunUpdate (agentId tk : String) (verifyAttempts : Nat) (st : Store) : Store :=
  match findLastIdx? (fun run => run.agent_id = agentId && run.task_key = tk) st.runs with
  | some i =>
    { st with runs := updRow st.runs i (fun run =>
        { run with outcome := "passed", attempts := verifyAttempts }) }
  | none => st

/-- The `errors` array of the latest matching `task_runs` row. -/
def latestRunErrors (agentId tk : String) (st : Store) : List ErrRec :=
  match findLastIdx? (fun run => run.agent_id = agentId && run.task_key = tk) st.runs with
  | some i =>
    match st.runs[i]? with
    | some run => run.errors
    | none => []
  | none => []

/-- Step 2 of `recordSuccess`, per error key: resolve every matching
unresolved solution with the EMA reward `+1` update
`confidence = MIN(confidence + 0.3(1 - confidence), 1)`, stash
`fix_files`, and stamp `file_knowledge.last_fix` (the `fix_summary`
reflection text, confidence-irrelevant, is not tracked; `last_fix` is
stored with the source's fallback text). -/
def resolveSolution (filesTouched : List String) (agentId : String)
    (st : Store) (err : ErrRec) : Store :=
  if err.error_key = "" then st
  else
    let st : Store := { st with solutions := st.solutions.map (fun s =>
      if s.error_key = err.error_key && !s.resolved then
        { s with resolved := true,
                 fix_files := some filesTouched,
                 confidence := min (s.confidence + 3/10 * (1 - s.confidence)) 1 }
      else s) }
    { st with files := st.files.map (fun f =>
        if f.path ∈ filesTouched && !(f.last_error = none) then
          { f with last_fix := some ("Fixed by " ++ agentId ++ ": " ++ err.error_key) }
        else f) }

/-- Step 3 of `recordSuccess`: `hits += 1` and the Laplace confidence
`(hits+1+1)/(hits+1+misses+2)` computed from the pre-update values. -/
def ruleHitUpdate (st : Store) (ruleId : Nat) : Store :=
  { st with rules := st.rules.map (fun r =>
      if r.id = ruleId then
        { r with hits := r.hits + 1,
                 confidence := ((r.hits : ℚ) + 2) / ((r.hits : ℚ) + (r.misses : ℚ) + 3) }
      else r) }

/-- The rule text of `recordSuccess` step 5. -/
def multiAttemptRuleText (tk : String) (verifyAttempts : Nat)
    (filesTouched : List String) : String :=
  "Task " ++ tk ++ " needed " ++ toString verifyAttempts ++
    " verification attempts on " ++ String.intercalate ", " (filesTouched.take 3) ++
    ". Check carefully before signaling done."

/-- `recordSuccess` body (open store, truthy task key), as the source's
statement sequence. -/
def recordSuccess (st : Store) (agentId : String) (tk : String)
    (filesTouched : List String) (verifyAttempts : Nat) (injectedRuleIds : List Nat) :
    Store :=
  let st1 := successRunUpdate agentId tk verifyAttempts st
  let st2 := (latestRunErrors agentId tk st1).foldl (resolveSolution filesTouched agentId) st1
  let st3 := injectedRuleIds.foldl ruleHitUpdate st2
  let st4 := updateCochanges st3 filesTouched
  if 1 < verifyAttempts ∧ filesTouched ≠ [] then
    upsertRule st4 ("file:" ++ filesTouched.headD "")
      (multiAttemptRuleText tk verifyAttempts filesTouched)
      (3/5) (some (agentId ++ " on " ++ tk))
  else st4

/-- `_generateFailureReflection(agentId, taskKey, reason, outcome,
filesTouched)`. -/
def generateFailureReflection (agentId : String) (tk : String) (reason : String)
    (outcome : String) (filesTouched : List String) : Option String :=
  if reason = "" then none
  else
    let fileBit :=
      if filesTouched = [] then ""
      else " Was working on: " ++ String.intercalate ", " (filesTouched.take 3) ++ "."
    let failFileBit :=
      if filesTouched = [] then ""
      else " Files touched: " ++ String.intercalate ", " (filesTouched.take 3) ++ "."
    let text :=
      if outcome = "blocked" then
        "Agent " ++ agentId ++ " was BLOCKED: " ++ reason.take 200 ++ "." ++
          " Next agent should find an alternative approach or request human help."
      else if outcome = "crashed" then
        "Agent " ++ agentId ++ " CRASHED: " ++ reason.take 200 ++ "." ++
          " This may indicate a tool issue rather than a code problem."
      else if outcome = "timeout" then
        "Agent " ++ agentId ++ " TIMED OUT on " ++ tk ++ "." ++ fileBit ++
          " Next agent should take a more focused approach."
      else
        "Agent " ++ agentId ++ " FAILED: " ++ reason.take 200 ++ "." ++ failFileBit ++
          " Next agent should try a DIFFERENT strategy."
    some (text.take 500)

/-- Step 1 of `recordFailure`: update or insert the `task_runs` row with
the outcome and a failure reflection in `notes`. -/
def failureRunUpdate (agentId : String) (tk : Option String) (reason outcome : String)
    (filesTouched : List String) (st : Store) : Store :=
  match tk with
  | none => st
  | some k =>
    let failReflection := generateFailureReflection agentId k reason outcome filesTouched
    let notes :=
      match failReflection with
      | some t => some t
      | none => some (reason.take 500)
    match findLastIdx? (fun run => run.agent_id = agentId && run.task_key = k) st.runs with
    | some i =>
      { st with runs := updRow st.runs i (fun run =>
          { run with outcome := outcome, notes := notes }) }
    | none =>
      { st with runs := st.runs ++
          [{ task_key := k, agent_id := agentId, tool_id := none, outcome := outcome
             attempts := 0, files_touched := filesTouched, errors := [], notes := notes }] }

/-- Step 2 of `recordFailure`, per touched file: EMA reward `-1` on every
unresolved solution whose key contains the file
(`confidence = MAX(confidence + 0.3(-1 - confidence), 0)`). -/
def weakenSolutions (st : Store) (fp : String) : Store :=
  { st with solutions := st.solutions.map (fun s =>
      if likeContains s.error_key fp && !s.resolved then
        { s with confidence := max (s.confidence + 3/10 * (-1 - s.confidence)) 0 }
      else s) }

/-- Step 3 of `recordFailure`: `misses += 1` and the Laplace confidence
`(hits+1)/(hits+misses+1+2)` from the pre-update values. -/
def ruleMissUpdate (st : Store) (ruleId : Nat) : Store :=
  { st with rules := st.rules.map (fun r =>
      if r.id = ruleId then
        { r with misses := r.misses + 1,
                 confidence := ((r.hits : ℚ) + 1) / ((r.hits : ℚ) + (r.misses : ℚ) + 3) }
      else r) }

/-- Step 4 of `recordFailure`: prune rules with
`confidence <= 0.05 AND misses > 3`. -/
def pruneRules (st : Store) : Store :=
  { st with rules := st.rules.filter (fun r => !(r.confidence ≤ 1/20 && 3 < r.misses)) }

/-- Step 5 of `recordFailure`: derive a file-scoped and a check-scoped
rule from each of the latest run's first two errors. -/
def deriveFailureRules (agentId k : String) (filesTouched : List String)
    (st : Store) : Store :=
  ((latestRunErrors agentId k st).take 2).foldl (fun st err =>
    if err.error_key = "" then st
    else
      let checkTy :=
        let seg := (err.error_key.splitOn ":").headD ""
        if seg = "" then "check" else seg
      let st := upsertRule st ("file:" ++ filesTouched.headD "")
        (checkTy ++ " error \"" ++ err.error_key ++
          "\" persists — previous approach failed. Try a different strategy.")
        (2/5) (some (agentId ++ " failure on " ++ k))
      upsertRule st ("check:" ++ checkTy)
        (err.error_key ++ " was NOT resolved — may need a different fix approach.")
        (3/10) (some (agentId ++ " failure"))) st

/-- `recordFailure` body (open store; the task key may be absent), as the
source's statement sequence. -/
def recordFailure (st : Store) (agentId : String) (tk : Option String) (reason : String)
    (outcome : String) (filesTouched : List String) (injectedRuleIds : List Nat) : Store :=
  let st1 := failureRunUpdate agentId tk reason outcome filesTouched st
  let st2 := filesTouched.foldl weakenSolutions st1
  let st3 := injectedRuleIds.foldl ruleMissUpdate st2
  let st4 := pruneRules st3
  match tk with
  | none => st4
  | some k =>
    if filesTouched = [] then st4
    else deriveFailureRules agentId k filesTouched st4

/-- JS-falsy task key at the `recordVerification`/`recordSuccess`
guards: `null`/`undefined` or the empty string. -/
def jsFalsyKey : Option String → Bool
  | none => true
  | some s => s = ""

/-- `recordVerification` with the closed-DB / falsy-key guard
(`if (!db || !taskKey) return;`). -/
def recordVerificationDB (db : Option Store) (agentId : String) (tk : Option String)
    (result : VerifyResult) (filesTouched : List String) (toolId : Option String)
    (attempt : Nat) : Option Store :=
  match db with
  | none => none
  | some st =>
    if jsFalsyKey tk then some st
    else some (recordVerification st agentId (tk.getD "") result filesTouched toolId attempt)

/-- `recordEpisode` with the closed-DB guard (`if (!db) return;`). -/
def recordEpisodeDB (db : Option Store) (agentId : String) (tk : Option String)
    (attempt : Nat) (result : VerifyResult) (filesTouched : List String) : Option Store :=
  match db with
  | none => none
  | some st => some (recordEpisode st agentId tk attempt result filesTouched)

/-- `recordSuccess` with the closed-DB / falsy-key guard. -/
def recordSuccessDB (db : Option Store) (agentId : String) (tk : Option String)
    (filesTouched : List String) (verifyAttempts : Nat) (injectedRuleIds : List Nat) :
    Option Store :=
  match db with
  | none => none
  | some st =>
    if jsFalsyKey tk then some st
    else some (recordSuccess st agentId (tk.getD "") filesTouched verifyAttempts injectedRuleIds)

/-- `recordFailure` with the closed-DB guard. -/
def recordFailureDB (db : Option Store) (agentId : String) (tk : Option String)
    (reason : String) (outcome : String) (filesTouched : List String)
    (injectedRuleIds : List Nat) : Option Store :=
  match db with
  | none => none
  | some st => some (recordFailure st agentId tk reason outcome filesTouched injectedRuleIds)

/-- `upsertRule` with the closed-DB guard. -/
def upsertRuleDB (db : Option Store) (scope rule : String) (confidence : ℚ)
    (source : Option String) : Option Store :=
  match db with
  | none => none
  | some st => some (upsertRule st scope rule confidence source)

/-- One call of the kind claim C6 quantifies over. -/
inductive MemCall where
  | success (agentId tk : String) (filesTouched : List String)
      (verifyAttempts : Nat) (injectedRuleIds : List Nat)
  | failure (agentId : String) (tk : Option String) (reason outcome : String)
      (filesTouched : List String) (injectedRuleIds : List Nat)
deriving Repr

/-- Apply one `recordSuccess`/`recordFailure` call to an open store. -/
def applyMemCall (st : Store) : MemCall → Store
  | MemCall.success a tk files va inj => recordSuccess st a tk files va inj
  | MemCall.failure a tk reason outcome files inj =>
    recordFailure st a tk reason outcome files inj

/-- Apply a sequence of calls. -/
def applyMemCalls (st : Store) (calls : List MemCall) : Store :=
  calls.foldl applyMemCall st

/-- Confidence bounds: `[0,1]` on every `solutions` row, `(0,1]` on
every `repo_rules` row. -/
def ConfInv (st : Store) : Prop :=
  (∀ s ∈ st.solutions, 0 ≤ s.confidence ∧ s.confidence ≤ 1) ∧
  (∀ r ∈ st.rules, 0 < r.confidence ∧ r.confidence ≤ 1)

instance (st : Store) : Decidable (ConfInv st) := by
  unfold ConfInv; infer_instance

/-- The empty store. -/
def emptyStore : Store :=
  { files := [], solutions := [], runs := [], rules := [], episodes := []
    relations := [], nextRuleId := 1 }

/-! ## `lib/tasks.js` — `savePRD` / `loadPRD` (claim C8)

Source (part_008:28-56):
```js
export function loadPRD(cwd) {
  const candidates = [join(cwd, "prd.json"), join(cwd, "ralph", "prd.json"),
                      join(cwd, ".homer", "prd.json")];
  for (const p of candidates) {
    if (existsSync(p)) {
      try {
        const prd = JSON.parse(readFileSync(p, "utf8"));
        if (prd && Array.isArray(prd.userStories)) return { path: p, prd };
      } catch { /* Malformed JSON — skip */ }
    }
  }
  return null;
}
export function savePRD(prdPath, prd) {
  writeFileSync(prdPath, JSON.stringify(prd, null, 2) + "\n", "utf8");
}
```

JSON values are embedded as the mutual inductive `Json` below.  Two
conscious restrictions of the embedding, stated once here:

  * numbers are integers (`Int`) — `JSON.stringify`/`JSON.parse` agree
    with decimal integer notation on safe integers, which is what PRD
    files contain; float formatting is out of scope;
  * object member lists keep textual order, which is both the
    `JSON.stringify` enumeration order and the `JSON.parse` insertion
    order for the string keys PRD files use.

`JSON.stringify(v, null, 2)` is `stringify2` (two-space indentation,
`": "` after keys, items separated by `,\n`); `JSON.parse` is
`jsonParse` (fuелled recursive descent — the fuel is discharged in the
round-trip theorem). -/

mutual

/-- A JSON value. -/
inductive Json where
  | jnull : Json
  | jbool : Bool → Json
  | jnum : Int → Json
  | jstr : List Char → Json
  | jarr : JsonList → Json
  | jobj : JsonObj → Json
deriving DecidableEq, Repr

/-- Member list of a JSON array. -/
inductive JsonList where
  | nil : JsonList
  | cons : Json → JsonList → JsonList
deriving DecidableEq, Repr

/-- Member list of a JSON object (key / value pairs in textual order). -/
inductive JsonObj where
  | nil : JsonObj
  | cons : List Char → Json → JsonObj → JsonObj
deriving DecidableEq, Repr

end

/-- Decimal digits of `n`, most significant first, by fuelled division
(`natToDigits n` with fuel `n + 1` always suffices). -/
def natToDigitsAux : Nat → Nat → List Char → List Char
  | 0, _, acc => acc
  | fuel + 1, n, acc =>
    let d := Char.ofNat ('0'.toNat + n % 10)
    if n < 10 then d :: acc
    else natToDigitsAux fuel (n / 10) (d :: acc)

/-- Decimal digit string of a natural number. -/
def natToDigits (n : Nat) : List Char :=
  natToDigitsAux (n + 1) n []

/-- Decimal notation of an integer (what `JSON.stringify` emits for the
safe integers PRD files contain). -/
def intRepr (n : Int) : List Char :=
  if n < 0 then '-' :: natToDigits (-n).toNat else natToDigits n.toNat

/-- Hex digit (lowercase, as `JSON.stringify` emits). -/
def hexDigit (n : Nat) : Char :=
  if n < 10 then Char.ofNat ('0'.toNat + n)
  else Char.ofNat ('a'.toNat + (n - 10))

/-- `JSON.stringify` escaping of one string character: `"` and `\` get a
backslash, the control characters with short forms use them, remaining
control characters become `\u00XX`, everything else is literal. -/
def escChar (c : Char) : List Char :=
  if c = '"' then ['\\', '"']
  else if c = '\\' then ['\\', '\\']
  else if c = '\x08' then ['\\', 'b']
  else if c = '\x09' then ['\\', 't']
  else if c = '\x0a' then ['\\', 'n']
  else if c = '\x0c' then ['\\', 'f']
  else if c = '\x0d' then ['\\', 'r']
  else if c.toNat < 0x20 then
    ['\\', 'u', '0', '0', hexDigit (c.toNat / 16), hexDigit (c.toNat % 16)]
  else [c]

/-- Escape a whole string body. -/
def escStr : List Char → List Char
  | [] => []
  | c :: rest => escChar c ++ escStr rest

/-- A quoted JSON string literal. -/
def quoteStr (s : List Char) : List Char :=
  '"' :: escStr s ++ ['"']

/-- `n` spaces. -/
def spaces (n : Nat) : List Char :=
  List.replicate n ' '

mutual

/-- `JSON.stringify(v, null, 2)` at indentation depth `ind` (the number
of spaces before the closing bracket of the value's container). -/
def stringifyAt (ind : Nat) : Json → List Char
  | Json.jnull => "null".toList
  | Json.jbool true => "true".toList
  | Json.jbool false => "false".toList
  | Json.jnum n => intRepr n
  | Json.jstr s => quoteStr s
  | Json.jarr JsonList.nil => "[]".toList
  | Json.jarr (JsonList.cons x xs) =>
    '[' :: '\n' :: spaces (ind + 2) ++ stringifyAt (ind + 2) x ++
      stringifyItems (ind + 2) xs ++ '\n' :: spaces ind ++ [']']
  | Json.jobj JsonObj.nil => "{}".toList
  | Json.jobj (JsonObj.cons k v kvs) =>
    '{' :: '\n' :: spaces (ind + 2) ++ quoteStr k ++ ':' :: ' ' ::
      stringifyAt (ind + 2) v ++ stringifyMembers (ind + 2) kvs ++
      '\n' :: spaces ind ++ ['}']

/-- Remaining array items, each preceded by `,\n` and indentation. -/
def stringifyItems (ind : Nat) : JsonList → List Char
  | JsonList.nil => []
  | JsonList.cons x xs =>
    ',' :: '\n' :: spaces ind ++ stringifyAt ind x ++ stringifyItems ind xs

/-- Remaining object members. -/
def stringifyMembers (ind : Nat) : JsonObj → List Char
  | JsonObj.nil => []
  | JsonObj.cons k v kvs =>
    ',' :: '\n' :: spaces ind ++ quoteStr k ++ ':' :: ' ' ::
      stringifyAt ind v ++ stringifyMembers ind kvs

end

/-- `JSON.stringify(v, null, 2)`. -/
def stringify2 (v : Json) : List Char :=
  stringifyAt 0 v

/-- JSON whitespace skipping (`space`, tab, LF, CR). -/
def skipWs (s : List Char) : List Char :=
  s.dropWhile (isWsChar ·)

/-- Value of a hex digit character, if it is one. -/
def hexVal (c : Char) : Option Nat :=
  if '0' ≤ c ∧ c ≤ '9' then some (c.toNat - '0'.toNat)
  else if 'a' ≤ c ∧ c ≤ 'f' then some (c.toNat - 'a'.toNat + 10)
  else if 'A' ≤ c ∧ c ≤ 'F' then some (c.toNat - 'A'.toNat + 10)
  else none

/-- Parse the body of a string literal after the opening quote, up to and
including the closing quote.  Escapes are decoded; raw control
characters are rejected as `JSON.parse` rejects them. -/
def parseStrBody : List Char → Option (List Char × List Char)
  | [] => none
  | '"' :: rest => some ([], rest)
  | '\\' :: esc =>
    match esc with
    | '"' :: rest => (parseStrBody rest).map (fun (s, r) => ('"' :: s, r))
    | '\\' :: rest => (parseStrBody rest).map (fun (s, r) => ('\\' :: s, r))
    | '/' :: rest => (parseStrBody rest).map (fun (s, r) => ('/' :: s, r))
    | 'b' :: rest => (parseStrBody rest).map (fun (s, r) => ('\x08' :: s, r))
    | 'f' :: rest => (parseStrBody rest).map (fun (s, r) => ('\x0c' :: s, r))
    | 'n' :: rest => (parseStrBody rest).map (fun (s, r) => ('\x0a' :: s, r))
    | 'r' :: rest => (parseStrBody rest).map (fun (s, r) => ('\x0d' :: s, r))
    | 't' :: rest => (parseStrBody rest).map (fun (s, r) => ('\x09' :: s, r))
    | 'u' :: h1 :: h2 :: h3 :: h4 :: rest =>
      match hexVal h1, hexVal h2, hexVal h3, hexVal h4 with
      | some a, some b, some c, some d =>
        let n := ((a * 16 + b) * 16 + c) * 16 + d
        if hv : n.isValidChar then
          (parseStrBody rest).map (fun (s, r) => (Char.ofNatAux n hv :: s, r))
        else none
      | _, _, _, _ => none
    | _ => none
  | c :: rest =>
    if c.toNat < 0x20 then none
    else (parseStrBody rest).map (fun (s, r) => (c :: s, r))

/-- Decimal digits to a natural number, most significant first. -/
def digitsToNat (acc : Nat) : List Char → Nat
  | [] => acc
  | c :: rest => digitsToNat (acc * 10 + (c.toNat - '0'.toNat)) rest

/-- Parse an integer numeral (optional minus, one or more digits). -/
def parseIntNum (s : List Char) : Option (Int × List Char) :=
  match s with
  | '-' :: rest =>
    let ds := rest.takeWhile (·.isDigit)
    if ds = [] then none
    else some (-(digitsToNat 0 ds : Int), rest.drop ds.length)
  | _ =>
    let ds := s.takeWhile (·.isDigit)
    if ds = [] then none
    else some ((digitsToNat 0 ds : Int), s.drop ds.length)

mutual

/-- Fuelled JSON value parser: leading whitespace, then one value. -/
def parseVal : Nat → List Char → Option (Json × List Char)
  | 0, _ => none
  | fuel + 1, s =>
    match skipWs s with
    | 'n' :: 'u' :: 'l' :: 'l' :: rest => some (Json.jnull, rest)
    | 't' :: 'r' :: 'u' :: 'e' :: rest => some (Json.jbool true, rest)
    | 'f' :: 'a' :: 'l' :: 's' :: 'e' :: rest => some (Json.jbool false, rest)
    | '"' :: rest => (parseStrBody rest).map (fun (cs, r) => (Json.jstr cs, r))
    | '[' :: rest =>
      (match skipWs rest with
       | ']' :: r2 => some (Json.jarr JsonList.nil, r2)
       | _ => (parseItems fuel rest).map (fun (xs, r) => (Json.jarr xs, r)))
    | '{' :: rest =>
      (match skipWs rest with
       | '}' :: r2 => some (Json.jobj JsonObj.nil, r2)
       | _ => (parseMembers fuel rest).map (fun (kvs, r) => (Json.jobj kvs, r)))
    | other => (parseIntNum other).map (fun (n, r) => (Json.jnum n, r))

/-- One or more array items, consuming the closing `]`. -/
def parseItems : Nat → List Char → Option (JsonList × List Char)
  | 0, _ => none
  | fuel + 1, s =>
    match parseVal fuel s with
    | none => none
    | some (v, r) =>
      match skipWs r with
      | ',' :: r2 => (parseItems fuel r2).map (fun (xs, r3) => (JsonList.cons v xs, r3))
      | ']' :: r2 => some (JsonList.cons v JsonList.nil, r2)
      | _ => none

/-- One or more object members, consuming the closing `}`. -/
def parseMembers : Nat → List Char → Option (JsonObj × List Char)
  | 0, _ => none
  | fuel + 1, s =>
    match skipWs s with
    | '"' :: rest =>
      match parseStrBody rest with
      | none => none
      | some (k, r) =>
        match skipWs r with
        | ':' :: r2 =>
          match parseVal fuel r2 with
          | none => none
          | some (v, r3) =>
            match skipWs r3 with
            | ',' :: r4 =>
              (parseMembers fuel r4).map (fun (kvs, r5) => (JsonObj.cons k v kvs, r5))
            | '}' :: r4 => some (JsonObj.cons k v JsonObj.nil, r4)
            | _ => none
        | _ => none
    | _ => none

end

/-- `JSON.parse(text)`: parse one value with enough fuel, then require
only whitespace to remain. -/
def jsonParse (s : List Char) : Option Json :=
  match parseVal (s.length + 1) s with
  | some (v, rest) => if skipWs rest = [] then some v else none
  | none => none

/-- Last-occurrence member lookup (JS property semantics after
`JSON.parse`, where a duplicate key's later value wins). -/
def jsGetMember (key : List Char) : JsonObj → Option Json
  | JsonObj.nil => none
  | JsonObj.cons k v rest =>
    match jsGetMember key rest with
    | some w => some w
    | none => if k = key then some v else none

/-- `prd && Array.isArray(prd.userStories)`: a parsed value passes the
`loadPRD` validation iff it is an object whose `userStories` member is an
array. -/
def isValidPRDJson : Json → Bool
  | Json.jobj kvs =>
    match jsGetMember ("userStories".toList) kvs with
    | some (Json.jarr _) => true
    | _ => false
  | _ => false

/-- A file system: path to contents. -/
def FileSys := List (String × List Char)

/-- `existsSync` + `readFileSync`. -/
def fsRead (fs : FileSys) (path : String) : Option (List Char) :=
  match List.find? (fun kv => kv.1 = path) fs with
  | some kv => some kv.2
  | none => none

/-- `writeFileSync`: overwrite or create. -/
def fsWrite (fs : FileSys) (path : String) (content : List Char) : FileSys :=
  match List.findIdx? (fun kv => kv.1 = path) fs with
  | some i => List.set fs i (path, content)
  | none => (path, content) :: fs

/-- `savePRD(prdPath, prd)`: write `JSON.stringify(prd, null, 2) + "\n"`. -/
def savePRD (fs : FileSys) (prdPath : String) (prd : Json) : FileSys :=
  fsWrite fs prdPath (stringify2 prd ++ ['\n'])

/-- The `loadPRD` candidate list for a working directory. -/
def prdCandidates (cwd : String) : List String :=
  [cwd ++ "/prd.json", cwd ++ "/ralph/prd.json", cwd ++ "/.homer/prd.json"]

/-- `loadPRD(cwd)`: first candidate that exists, parses, and carries a
`userStories` array; files that are missing, malformed, or fail the
shape check are skipped. -/
def loadPRD (fs : FileSys) (cwd : String) : Option (String × Json) :=
  (prdCandidates cwd).foldr
    (fun p acc =>
      match fsRead fs p with
      | none => acc
      | some content =>
        match jsonParse content with
        | none => acc
        | some prd => if isValidPRDJson prd then some (p, prd) else acc)
    none

mutual

/-- Fuel sufficient for `parseVal` on this value's printed form. -/
def fuelNeeded : Json → Nat
  | Json.jnull => 1
  | Json.jbool _ => 1
  | Json.jnum _ => 1
  | Json.jstr _ => 1
  | Json.jarr xs => 1 + fuelNeededList xs
  | Json.jobj kvs => 1 + fuelNeededObj kvs

/-- Fuel sufficient for `parseItems` on these items. -/
def fuelNeededList : JsonList → Nat
  | JsonList.nil => 0
  | JsonList.cons x xs => 1 + fuelNeeded x + fuelNeededList xs

/-- Fuel sufficient for `parseMembers` on these members. -/
def fuelNeededObj : JsonObj → Nat
  | JsonObj.nil => 0
  | JsonObj.cons _ v kvs => 1 + fuelNeeded v + fuelNeededObj kvs

end

/-! ## Concrete instances used by counterexamples and witnesses -/

/-- A not-passed story with the present priority `0`. -/
def storyPrioZero : Story :=
  { id := "US-A", title := "A", description := "", acceptanceCriteria := []
    priority := some 0, passes := false, notes := none }

/-- A not-passed story with the present priority `5`. -/
def storyPrioFive : Story :=
  { id := "US-B", title := "B", description := "", acceptanceCriteria := []
    priority := some 5, passes := false, notes := none }

/-- The two-story PRD exercising the `priority || 99` quirk. -/
def prdPrioQuirk : PRD :=
  { userStories := [storyPrioZero, storyPrioFive] }

/-- An agent in status `working` about to receive a `DoneSignal`. -/
def workingAgent : EAgent :=
  { id := "agent-1", status := Status.working, verifyAttempts := 0 }

/-- A buffer window containing `HOMER_BLOCKED` strictly before
`HOMER_DONE`. -/
def bothTokensBuf : List Char :=
  "HOMER_BLOCKED: db is down, then HOMER_DONE".toList

/-- An agent whose output buffer just crossed the 300 KiB trim
threshold. -/
def overfullAgent : BufAgent :=
  { id := "agent-1", taskKey := some "story:US-1"
    outputBuffer := List.replicate 307201 'a', verifyHistory := [] }

/-- The single PRD story of the reroute-budget scenario (one acceptance
criterion, so it is not decomposed). -/
def rerouteStory : Story :=
  { id := "US-1", title := "T", description := "D", acceptanceCriteria := ["a"]
    priority := some 1, passes := false, notes := none }

/-- The work unit for `rerouteStory`. -/
def rerouteTask : WorkTask :=
  { title := "T", body := "D"
    story := some { id := "US-1", title := "T", isSubtask := false, parentId := none }
    issueNumber := none }

/-- An agent holding `rerouteStory` that has exhausted its verify
budget. -/
def rerouteAgent : SAgent :=
  { id := "agent-1", status := Status.verifying, task := some rerouteTask
    verifyAttempts := 5 }

/-- Engine state in which `story:US-1` has already been rerouted
`MAX_REROUTES` times. -/
def rerouteState : EngineState :=
  { auto := true, hasTool := true, repo := "", maxAgents := 1
    agents := [rerouteAgent], agentCounter := 1
    taskRetryCounts := [("story:US-1", 2)]
    prd := some { userStories := [rerouteStory] }
    prdPathPresent := true, subtaskMap := [], issues := [] }

/-- One `recordSuccess` call that triggers the multi-attempt rule
upsert. -/
def boostCall : MemCall :=
  MemCall.success "agent-1" "story:US-001" ["lib/auth.js"] 2 []

/-- A small valid PRD as a JSON value (`userStories` array present, keys
in insertion order). -/
def samplePRDJson : Json :=
  Json.jobj (JsonObj.cons ("project".toList) (Json.jstr ("demo".toList))
    (JsonObj.cons ("userStories".toList)
      (Json.jarr (JsonList.cons
        (Json.jobj (JsonObj.cons ("id".toList) (Json.jstr ("US-001".toList))
          (JsonObj.cons ("title".toList) (Json.jstr ("Add auth".toList))
            (JsonObj.cons ("priority".toList) (Json.jnum 1)
              (JsonObj.cons ("passes".toList) (Json.jbool false) JsonObj.nil)))))
        JsonList.nil))
      JsonObj.nil))

/-- A `runVerification` result with one failing check, used by the C9
witness arguments. -/
def sampleVerifyResult : VerifyResult :=
  { passed := false
    results := [{ name := "typecheck", cmd := "npm run typecheck", passed := false
                  output := "TS2322 lib/auth.js", errorKey := some "typecheck:TS2322:lib/auth.js" }] }

/-! # Theorems -/

/-! ## Claim C7 — `nextStory` selection order -/

theorem head?_orderedInsert (k : Story → Nat) (a : Story) (s : List Story) :
    (List.orderedInsert (fun x y => k x ≤ k y) a s).head? =
      some (match s.head? with
            | none => a
            | some b => if k a ≤ k b then a else b) := by
  cases s with
  | nil => simp [List.orderedInsert]
  | cons b t =>
    by_cases h : k a ≤ k b <;> simp [List.orderedInsert, h]

theorem head?_insertionSort (k : Story → Nat) (l : List Story) :
    (List.insertionSort (fun x y => k x ≤ k y) l).head? = firstMinBy k l := by
  induction l with
  | nil => simp [List.insertionSort, firstMinBy]
  | cons a t ih =>
    show (List.orderedInsert (fun x y => k x ≤ k y) a
      (List.insertionSort (fun x y => k x ≤ k y) t)).head? = firstMinBy k (a :: t)
    rw [head?_orderedInsert, firstMinBy, ← ih]
    cases h : (List.insertionSort (fun x y => k x ≤ k y) t).head? <;>
      simp [h, apply_ite some]

theorem firstMinBy_eq_none (k : Story → Nat) (l : List Story) :
    firstMinBy k l = none ↔ l = [] := by
  cases l with
  | nil => simp [firstMinBy]
  | cons a t =>
    simp only [firstMinBy]
    constructor
    · intro h
      cases hm : firstMinBy k t <;> simp [hm] at h <;> split at h <;> simp_all
    · intro h; exact absurd h (List.cons_ne_nil a t)

/-- Claim C7 (counterexample): a present priority `0` is falsy in
`a.priority || 99`, so the story with present priority `5` is returned
ahead of the not-passed story with present, smaller priority `0` —
against the claim's "every story with a present, smaller priority is
preferred". -/
theorem nextStory_prioZero_counterexample :
    nextStory prdPrioQuirk = some storyPrioFive ∧
      storyPrioZero ∈ prdPrioQuirk.userStories ∧
      storyPrioZero.passes = false ∧
      specPriority storyPrioZero < specPriority storyPrioFive := by
  refine ⟨?_, by decide, by decide, by decide⟩
  show (List.insertionSort _ _).head? = _
  rw [head?_insertionSort]
  decide

/-- Claim C7 (amended): `nextStory` returns the earliest not-passed story
of minimal effective priority, where the effective priority maps BOTH a
missing priority and a present priority `0` to `99` (JS `|| 99` treats
`0` as falsy); it returns `null` exactly when every story has passed. -/
theorem nextStory_amended (prd : PRD) :
    nextStory prd = firstMinBy jsPriority (prd.userStories.filter (fun s => !s.passes)) ∧
      (nextStory prd = none ↔ ∀ s ∈ prd.userStories, s.passes = true) := by
  have h1 : nextStory prd =
      firstMinBy jsPriority (prd.userStories.filter (fun s => !s.passes)) :=
    head?_insertionSort jsPriority _
  refine ⟨h1, ?_⟩
  rw [h1, firstMinBy_eq_none, List.filter_eq_nil_iff]
  simp


/-! ## Claim C10 — `topoLayers` termination and coverage -/

theorem sublist_filter_not_mem_perm :
    ∀ {l s : List Int}, List.Sublist s l → l.Nodup →
      (s ++ l.filter (fun n => n ∉ s)).Perm l := by
  intro l
  induction l with
  | nil =>
    intro s hs _
    have : s = [] := List.sublist_nil.mp hs
    subst this; simp
  | cons a l' ih =>
    intro s hs hnd
    have hal' : a ∉ l' := (List.nodup_cons.mp hnd).1
    have hnd' : l'.Nodup := (List.nodup_cons.mp hnd).2
    rcases List.sublist_cons_iff.mp hs with hsl' | ⟨s', rfl, hs'⟩
    · have has : a ∉ s := fun hmem => hal' (hsl'.mem hmem)
      have hfa : (a :: l').filter (fun n => n ∉ s) =
          a :: l'.filter (fun n => n ∉ s) := by
        simp [List.filter_cons, has]
      rw [hfa]
      exact List.Perm.trans List.perm_middle ((ih hsl' hnd').cons a)
    · have hpa : (decide (a ∉ (a :: s'))) = false := by simp
      have hfa : (a :: l').filter (fun n => n ∉ (a :: s')) =
          l'.filter (fun n => n ∉ s') := by
        rw [List.filter_cons, hpa]
        simp only [Bool.false_eq_true, if_false]
        refine List.filter_congr ?_
        intro x hx
        have hxa : x ≠ a := fun hxe => hal' (hxe ▸ hx)
        simp [hxa]
      rw [hfa]
      exact (ih hs' hnd').cons a

theorem layerUOf_sublist (d : Int → Nat) (u : List Int) :
    List.Sublist (layerUOf d u) u := by
  rw [layerUOf]; split
  · exact List.Sublist.refl _
  · exact List.filter_sublist _

theorem layerUOf_ne_nil (d : Int → Nat) (u : List Int) (hu : u ≠ []) :
    layerUOf d u ≠ [] := by
  rw [layerUOf]; split
  · exact hu
  · assumption

theorem kahnLoop_flatten_perm (ch : Int → List Int) :
    ∀ (n : Nat) (d : Int → Nat) (u : List Int), u.length ≤ n → u.Nodup →
      ((kahnLoop ch d u).flatten).Perm u := by
  intro n
  induction n with
  | zero =>
    intro d u hlen _
    have hu : u = [] := List.length_eq_zero.mp (Nat.le_zero.mp hlen)
    subst hu
    rw [kahnLoop]
    simp
  | succ n ih =>
    intro d u hlen hnd
    rw [kahnLoop]
    by_cases hu : u = []
    · subst hu; simp
    · simp only [hu, dite_false, List.flatten_cons]
      have hperm : (layerOf d u).Perm (layerUOf d u) := List.perm_insertionSort _ _
      have hmemiff : ∀ x, x ∈ layerOf d u ↔ x ∈ layerUOf d u := fun x => hperm.mem_iff
      have hrest : u.filter (fun m => m ∉ layerOf d u) =
          u.filter (fun m => m ∉ layerUOf d u) := by
        refine List.filter_congr ?_
        intro x _
        simp [hmemiff x]
      have hlt : (u.filter (fun m => m ∉ layerOf d u)).length ≤ n := by
        obtain ⟨x, xs, hxe⟩ := List.exists_cons_of_ne_nil (layerUOf_ne_nil d u hu)
        have hx : x ∈ layerUOf d u := by rw [hxe]; exact List.mem_cons_self x xs
        have hxl : x ∈ layerOf d u := (hmemiff x).mpr hx
        have : (u.filter (fun m => m ∉ layerOf d u)).length < u.length := by
          rw [List.length_filter_lt_length_iff_exists]
          exact ⟨x, (layerUOf_sublist d u).mem hx, by simp [hxl]⟩
        omega
      have hrec := ih (decLayer ch (layerOf d u) d) (u.filter (fun m => m ∉ layerOf d u))
        hlt (hnd.filter _)
      refine (hrec.append_left (layerOf d u)).trans ?_
      rw [hrest]
      exact (hperm.append_right _).trans
        (sublist_filter_not_mem_perm (layerUOf_sublist d u) hnd)

theorem mapSetKeys_go_nodup (issues : List DagIssue) :
    ∀ acc : List Int, acc.Nodup →
      (issues.foldl (fun ks i => if i.number ∈ ks then ks else ks ++ [i.number]) acc).Nodup := by
  induction issues with
  | nil => intro acc h; exact h
  | cons i t ih =>
    intro acc h
    simp only [List.foldl_cons]
    by_cases hm : i.number ∈ acc
    · simpa [hm] using ih acc h
    · have : (acc ++ [i.number]).Nodup := by
        simp [List.nodup_append, h, hm]
      simpa [hm] using ih _ this

theorem mapSetKeys_go_mem (issues : List DagIssue) :
    ∀ (acc : List Int) (n : Int),
      (n ∈ issues.foldl (fun ks i => if i.number ∈ ks then ks else ks ++ [i.number]) acc ↔
        n ∈ acc ∨ n ∈ issues.map (·.number)) := by
  induction issues with
  | nil => intro acc n; simp
  | cons i t ih =>
    intro acc n
    simp only [List.foldl_cons, List.map_cons, List.mem_cons]
    by_cases hm : i.number ∈ acc
    · rw [if_pos hm, ih]
      constructor
      · rintro (h | h)
        · exact Or.inl h
        · exact Or.inr (Or.inr h)
      · rintro (h | h | h)
        · exact Or.inl h
        · exact Or.inl (h ▸ hm)
        · exact Or.inr h
    · rw [if_neg hm, ih]
      simp only [List.mem_append, List.mem_singleton]
      tauto

/-- Claim C10: `topoLayers` is total (its loop is defined by well-founded
recursion on the unvisited count — every round's layer is nonempty, the
cyclic remainder being emitted as one final layer), and the
concatenation of its layers contains each input issue number exactly
once. -/
theorem topoLayers_coverage (issues : List DagIssue) (n : Int) :
    ((topoLayers issues).flatten).count n =
      if n ∈ issues.map (·.number) then 1 else 0 := by
  have hnd : (mapSetKeys issues).Nodup := mapSetKeys_go_nodup issues [] List.nodup_nil
  have hperm := kahnLoop_flatten_perm (childrenOf issues) (mapSetKeys issues).length
    (inDegreeInit issues) (mapSetKeys issues) le_rfl hnd
  rw [show topoLayers issues =
    kahnLoop (childrenOf issues) (inDegreeInit issues) (mapSetKeys issues) from rfl]
  rw [hperm.count_eq]
  have hmem : n ∈ mapSetKeys issues ↔ n ∈ issues.map (·.number) := by
    have := mapSetKeys_go_mem issues [] n
    simpa [mapSetKeys] using this
  by_cases hin : n ∈ issues.map (·.number)
  · rw [if_pos hin]
    exact List.count_eq_one_of_mem hnd (hmem.mpr hin)
  · rw [if_neg hin]
    exact List.count_eq_zero.mpr (fun hc => hin (hmem.mp hc))

/-! ## Claim C2 — `agent:status` prev field -/

/-- Claim C2 (code bug): on the `working → verifying` transition of
`_handleDone`, the emitted `agent:status` event carries `prev = null`
although the status did change — every `_setStatus` call site assigns
`agent.status` before the call, so the `prev` computation
`agent.status === status ? null : agent.status` always sees the already
updated field and never reports a previous status. -/
theorem handleDone_prev_null_despite_change :
    (handleDoneEnter workingAgent).2.prev = none ∧
      (handleDoneEnter workingAgent).2.status = Status.verifying ∧
      workingAgent.status = Status.working ∧
      (handleDoneEnter workingAgent).1.status ≠ workingAgent.status := by
  decide

/-! ## Claim C5 — verification output truncation -/

theorem jsSliceLast_length_le (n : Nat) (s : List Char) :
    (jsSliceLast n s).length ≤ n := by
  simp only [jsSliceLast, List.length_drop]
  omega

theorem jsSliceLast_eq_nil_iff (n : Nat) (hn : 0 < n) (s : List Char) :
    jsSliceLast n s = [] ↔ s = [] := by
  simp only [jsSliceLast]
  constructor
  · intro h
    have := congrArg List.length h
    simp only [List.length_drop, List.length_nil] at this
    have : s.length = 0 := by omega
    exact List.length_eq_zero.mp this
  · intro h; subst h; simp

theorem jsSliceLast_of_le (n : Nat) (s : List Char) (h : s.length ≤ n) :
    jsSliceLast n s = s := by
  simp only [jsSliceLast, Nat.sub_eq_zero_of_le h, List.drop_zero]

/-- Claim C5 (counterexample): a failing check whose stderr holds 800
characters stores only its last 500 — not the last 800 the claim
asserts. -/
theorem checkOutput_stderr_counterexample :
    checkOutput (ExecOutcome.err (List.replicate 800 'x') [] []) ≠
        jsSliceLast 800 (List.replicate 800 'x') ∧
      (checkOutput (ExecOutcome.err (List.replicate 800 'x') [] [])).length = 500 ∧
      (jsSliceLast 800 (List.replicate 800 'x')).length = 800 := by
  have h500 : jsSliceLast 500 (List.replicate 800 'x') = List.replicate 500 'x' := by
    rw [jsSliceLast, List.length_replicate, List.drop_replicate]
  have h800 : jsSliceLast 800 (List.replicate 800 'x') = List.replicate 800 'x' := by
    rw [jsSliceLast, List.length_replicate, Nat.sub_self, List.drop_zero]
  have hout : checkOutput (ExecOutcome.err (List.replicate 800 'x') [] []) =
      List.replicate 500 'x' := by
    simp only [checkOutput, h500]
    rw [jsOrStr, if_neg (by simp), jsSliceLast, List.length_replicate,
      List.drop_replicate]
  refine ⟨?_, ?_, ?_⟩
  · rw [hout, h800]
    intro h
    have := congrArg List.length h
    simp only [List.length_replicate] at this
    omega
  · rw [hout, List.length_replicate]
  · rw [h800, List.length_replicate]

/-- Claim C5 (amended): on success the last 500 characters of stdout are
stored; on failure the preferred stream is still truncated to its last
**500** characters before the `slice(-800)` is applied — so a failing
check keeps at most 500 characters of stderr/stdout, and only the
cause-message fallback can reach 800 characters. -/
theorem checkOutput_amended (se so msg out : List Char) :
    checkOutput (ExecOutcome.ok out) = jsSliceLast 500 out ∧
    checkOutput (ExecOutcome.err se so msg) =
      (if se ≠ [] then jsSliceLast 500 se
       else if so ≠ [] then jsSliceLast 500 so
       else if msg ≠ [] then jsSliceLast 800 msg
       else "unknown error".toList) ∧
    (checkOutput (ExecOutcome.err se so msg)).length ≤ 800 ∧
    (se ≠ [] → (checkOutput (ExecOutcome.err se so msg)).length ≤ 500) := by
  have hsl : ∀ t : List Char, jsSliceLast 800 (jsSliceLast 500 t) = jsSliceLast 500 t :=
    fun t => jsSliceLast_of_le 800 _ (le_trans (jsSliceLast_length_le 500 t) (by norm_num))
  have hnil : jsSliceLast 500 ([] : List Char) = [] := rfl
  have hmain : checkOutput (ExecOutcome.err se so msg) =
      (if se ≠ [] then jsSliceLast 500 se
       else if so ≠ [] then jsSliceLast 500 so
       else if msg ≠ [] then jsSliceLast 800 msg
       else "unknown error".toList) := by
    simp only [checkOutput, jsOrStr]
    by_cases hse : se = []
    · subst hse
      rw [hnil, if_pos rfl]
      by_cases hso : so = []
      · subst hso
        rw [hnil, if_pos rfl]
        by_cases hmsg : msg = []
        · subst hmsg
          rw [if_pos rfl]
          simp only [ne_eq, not_true_eq_false, if_false]
          exact jsSliceLast_of_le _ _ (by decide)
        · rw [if_neg hmsg]
          simp [hmsg]
      · have hne : ¬(jsSliceLast 500 so = []) :=
          fun hh => hso ((jsSliceLast_eq_nil_iff 500 (by norm_num) so).mp hh)
        rw [if_neg hne, hsl so]
        simp [hso]
    · have hne : ¬(jsSliceLast 500 se = []) :=
        fun hh => hse ((jsSliceLast_eq_nil_iff 500 (by norm_num) se).mp hh)
      rw [if_neg hne, hsl se]
      simp [hse]
  refine ⟨rfl, hmain, ?_, ?_⟩
  · rw [hmain]
    split
    · exact le_trans (jsSliceLast_length_le _ _) (by norm_num)
    · split
      · exact le_trans (jsSliceLast_length_le _ _) (by norm_num)
      · split
        · exact jsSliceLast_length_le _ _
        · decide
  · intro hse
    rw [hmain, if_pos hse]
    exact jsSliceLast_length_le _ _

/-- Claim C5 (amended, witness): concrete failing stderr of 800
characters keeps exactly its last 500. -/
theorem checkOutput_amended_witness :
    (List.replicate 800 'x' : List Char) ≠ [] ∧
      (checkOutput (ExecOutcome.err (List.replicate 800 'x') [] [])).length ≤ 500 := by
  have hne : (List.replicate 800 'x' : List Char) ≠ [] := by
    intro h
    have := congrArg List.length h
    rw [List.length_replicate, List.length_nil] at this
    omega
  exact ⟨hne, (checkOutput_amended (List.replicate 800 'x') [] [] []).2.2.2 hne⟩

/-! ## Claim C1 — extract-then-discard compaction record -/

/-- Claim C1 (code bug): `recordContextCompaction` is not among the
exports of `lib/memory.js`, so the store write inside
`_extractAndStoreContext` throws and is swallowed by `_trimBuffer`'s
`try/catch`: on a trim event (buffer over 300 KiB) the prefix is
discarded — the rebuilt buffer is history digest + `"\n"` + last
128 KiB — while the memory store receives no `ContextCompaction` record
at all. -/
theorem trimBuffer_discards_without_record (store : List CompactionRecord) :
    "recordContextCompaction" ∉ memoryExports ∧
      307200 < overfullAgent.outputBuffer.length ∧
      (trimBuffer overfullAgent store).2 = store ∧
      (trimBuffer overfullAgent store).1.outputBuffer.length = 131073 := by
  have hlen : overfullAgent.outputBuffer.length = 307201 := by
    rw [show overfullAgent.outputBuffer = List.replicate 307201 'a' from rfl,
      List.length_replicate]
  have hcond : 307200 < overfullAgent.outputBuffer.length := by omega
  have hhist : List.intercalate ('\n' :: [])
      (overfullAgent.verifyHistory.map (·.outputSnippet)) = [] := rfl
  refine ⟨by decide, hcond, ?_, ?_⟩
  · rw [trimBuffer, if_pos hcond]
  · rw [trimBuffer, if_pos hcond, hhist]
    dsimp only
    rw [List.nil_append, List.length_cons, jsSliceLast, List.length_drop, hlen]

/-! ## Claim C9 — closed-DB writes are no-ops -/

/-- Claim C9: with the database closed (`db = none`), each of the five
write operations returns without touching any state and without raising
an error (the guards `if (!db) return` / `if (!db || !taskKey) return`
fire first). -/
theorem memory_writes_noop_when_closed
    (agentId : String) (tk : Option String) (result : VerifyResult)
    (filesTouched : List String) (toolId : Option String) (attempt : Nat)
    (verifyAttempts : Nat) (injected : List Nat) (reason outcome : String)
    (scope rule : String) (conf : ℚ) (source : Option String) :
    recordVerificationDB none agentId tk result filesTouched toolId attempt = none ∧
    recordEpisodeDB none agentId tk attempt result filesTouched = none ∧
    recordSuccessDB none agentId tk filesTouched verifyAttempts injected = none ∧
    recordFailureDB none agentId tk reason outcome filesTouched injected = none ∧
    upsertRuleDB none scope rule conf source = none :=
  ⟨rfl, rfl, rfl, rfl, rfl⟩

/-! ## Claim C4 — signal detection -/

theorem stripCsi_cons_ne (c : Char) (rest : List Char) (hc : c ≠ '\x1b') :
    stripCsi (c :: rest) = c :: stripCsi rest := by
  rw [stripCsi.eq_def]
  split
  · next heq => exact absurd heq (by simp)
  · next heq =>
      injection heq with h1 _
      exact absurd h1 hc
  · next heq =>
      injection heq with h1 h2
      subst h1; subst h2; rfl

theorem stripOsc_cons_ne (c : Char) (rest : List Char) (hc : c ≠ '\x1b') :
    stripOsc (c :: rest) = c :: stripOsc rest := by
  rw [stripOsc.eq_def]
  split
  · next heq => exact absurd heq (by simp)
  · next heq =>
      injection heq with h1 _
      exact absurd h1 hc
  · next heq =>
      injection heq with h1 h2
      subst h1; subst h2; rfl

theorem stripCsi_of_no_esc : ∀ s : List Char, '\x1b' ∉ s → stripCsi s = s := by
  intro s
  induction s with
  | nil => intro _; rw [stripCsi.eq_def]
  | cons c rest ih =>
    intro hmem
    have hc : c ≠ '\x1b' := fun h => hmem (h ▸ List.mem_cons_self c rest)
    have hrest : '\x1b' ∉ rest := fun h => hmem (List.mem_cons_of_mem c h)
    rw [stripCsi_cons_ne c rest hc, ih hrest]

theorem stripOsc_of_no_esc : ∀ s : List Char, '\x1b' ∉ s → stripOsc s = s := by
  intro s
  induction s with
  | nil => intro _; rw [stripOsc.eq_def]
  | cons c rest ih =>
    intro hmem
    have hc : c ≠ '\x1b' := fun h => hmem (h ▸ List.mem_cons_self c rest)
    have hrest : '\x1b' ∉ rest := fun h => hmem (List.mem_cons_of_mem c h)
    rw [stripOsc_cons_ne c rest hc, ih hrest]

theorem stripAnsi_of_no_esc (s : List Char) (h : '\x1b' ∉ s) : stripAnsi s = s := by
  rw [stripAnsi, stripCsi_of_no_esc s h, stripOsc_of_no_esc s h]

/-- Claim C4 (counterexample): with `HOMER_BLOCKED` occurring strictly
before `HOMER_DONE` in the scanned window, the handler still reports the
done signal — `HOMER_DONE` wins by branch order, not the earliest
token. -/
theorem detectSignal_not_earliest_counterexample :
    detectSignal Status.working bothTokensBuf = some Signal.done ∧
      jsIndexOf bothTokensBuf ("HOMER_BLOCKED".toList) = some 0 ∧
      jsIndexOf bothTokensBuf ("HOMER_DONE".toList) = some 32 := by
  have hesc : '\x1b' ∉ bothTokensBuf := by decide
  have hstrip : stripAnsi bothTokensBuf = bothTokensBuf := stripAnsi_of_no_esc _ hesc
  have htail : jsSliceLast 500 (stripAnsi bothTokensBuf) = bothTokensBuf := by
    rw [hstrip]
    exact jsSliceLast_of_le _ _ (by decide)
  refine ⟨?_, by decide, by decide⟩
  rw [detectSignal]
  rw [if_neg (by decide : ¬(Status.working ≠ Status.working))]
  rw [htail]
  rw [if_pos (by decide : jsIncludes bothTokensBuf ("HOMER_DONE".toList))]

/-- Claim C4 (amended): no signal is detected unless the status is
`working`, and at most one per scan; but precedence is by branch order,
not position — whenever `HOMER_DONE` appears anywhere in the
ANSI-stripped last 500 characters it wins, even if `HOMER_BLOCKED`
occurs earlier; `HOMER_BLOCKED` fires only when `HOMER_DONE` is absent,
with reason the trimmed same-line text after the token (possibly the
empty string — the source's `"unknown"` fallback is unreachable when the
token is present in the window). -/
theorem detectSignal_amended (status : Status) (buf : List Char) :
    (status ≠ Status.working → detectSignal status buf = none) ∧
    (status = Status.working →
      (jsIncludes (jsSliceLast 500 (stripAnsi buf)) ("HOMER_DONE".toList) →
        detectSignal status buf = some Signal.done) ∧
      (¬ jsIncludes (jsSliceLast 500 (stripAnsi buf)) ("HOMER_DONE".toList) →
       jsIncludes (jsSliceLast 500 (stripAnsi buf)) ("HOMER_BLOCKED".toList) →
        detectSignal status buf =
          some (Signal.blocked (blockedReason (jsSliceLast 500 (stripAnsi buf))))) ∧
      (¬ jsIncludes (jsSliceLast 500 (stripAnsi buf)) ("HOMER_DONE".toList) →
       ¬ jsIncludes (jsSliceLast 500 (stripAnsi buf)) ("HOMER_BLOCKED".toList) →
        detectSignal status buf = none)) := by
  constructor
  · intro hs
    rw [detectSignal, if_pos hs]
  · intro hs
    subst hs
    refine ⟨?_, ?_, ?_⟩
    · intro hd
      rw [detectSignal, if_neg (by simp), if_pos hd]
    · intro hnd hb
      rw [detectSignal, if_neg (by simp), if_neg hnd, if_pos hb]
    · intro hnd hnb
      rw [detectSignal, if_neg (by simp), if_neg hnd, if_neg hnb]

/-- Claim C4 (amended, witness): at the concrete buffer holding both
tokens, with `HOMER_BLOCKED` first, the done branch fires. -/
theorem detectSignal_amended_witness :
    jsIncludes (jsSliceLast 500 (stripAnsi bothTokensBuf)) ("HOMER_DONE".toList) ∧
      detectSignal Status.working bothTokensBuf = some Signal.done := by
  have hesc : '\x1b' ∉ bothTokensBuf := by decide
  have htail : jsSliceLast 500 (stripAnsi bothTokensBuf) = bothTokensBuf := by
    rw [stripAnsi_of_no_esc _ hesc]
    exact jsSliceLast_of_le _ _ (by decide)
  have hd : jsIncludes (jsSliceLast 500 (stripAnsi bothTokensBuf)) ("HOMER_DONE".toList) := by
    rw [htail]; decide
  exact ⟨hd, ((detectSignal_amended Status.working bothTokensBuf).2 rfl).1 hd⟩

/-! ## Claim C3 — reroute budget -/

/-- Claim C3 (counterexample): with the reroute count for `story:US-1`
already at `MAX_REROUTES = 2`, `_reroute` refuses (agent `failed`, story
marked failed with `passes` left `false`, no replacement) — but the very
next `_autoSpawnNext` picks the same story again and spawns a further
agent for that task, because neither `markStoryFailed` nor
`_pickNextTask` excludes it. -/
theorem reroute_exceeded_respawns_counterexample :
    (reroute rerouteState "agent-1" "Verification failed 5x").2 = false ∧
      ((reroute rerouteState "agent-1" "Verification failed 5x").1.agents.map
        (·.status)) = [Status.failed] ∧
      (reroute rerouteState "agent-1" "Verification failed 5x").1.taskRetryCounts =
        [("story:US-1", 2)] ∧
      ((reroute rerouteState "agent-1" "Verification failed 5x").1.prd.map
        (fun p => p.userStories.map (·.passes))) = some [false] ∧
      ((autoSpawnNext (reroute rerouteState "agent-1" "Verification failed 5x").1).agents.map
        (fun a => (a.id, taskKeyOf a.task, a.status))) =
        [("agent-1", some "story:US-1", Status.failed),
         ("agent-2", some "story:US-1", Status.working)] := by
  decide

theorem findIdx?_of_find? (p : SAgent → Bool) :
    ∀ (l : List SAgent) (a : SAgent), l.find? p = some a →
      ∃ i, l.findIdx? p = some i ∧ l[i]? = some a := by
  intro l
  induction l with
  | nil => intro a h; simp [List.find?] at h
  | cons c t ih =>
    intro a h
    by_cases hc : p c
    · rw [List.find?_cons_of_pos _ hc] at h
      refine ⟨0, ?_, ?_⟩
      · simp [List.findIdx?_cons, hc]
      · simpa using h
    · rw [List.find?_cons_of_neg _ hc] at h
      obtain ⟨i, hi, hget⟩ := ih a h
      refine ⟨i + 1, ?_, ?_⟩
      · simp [List.findIdx?_cons, hc, hi]
      · simpa using hget

/-- Claim C3 (amended): once the reroute count for an agent's task has
reached `MAX_REROUTES = 2`, `_reroute` spawns nothing, leaves the count
and agent counter unchanged, and turns the agent terminal `failed` (the
counterexample above shows the scheduler may nevertheless select the
task again, since `markStoryFailed` keeps `passes = false` and
`_pickNextTask` never consults `taskRetryCounts`). -/
theorem reroute_exceeded_amended (s : EngineState) (aid reason : String)
    (a : SAgent) (key : String)
    (hfind : s.agents.find? (fun x => x.id = aid) = some a)
    (hkey : taskKeyOf a.task = some key)
    (hbudget : MAX_REROUTES ≤ lookupCount s.taskRetryCounts key) :
    (reroute s aid reason).2 = false ∧
      (reroute s aid reason).1.taskRetryCounts = s.taskRetryCounts ∧
      (reroute s aid reason).1.agentCounter = s.agentCounter ∧
      (reroute s aid reason).1.agents.length = s.agents.length ∧
      ∃ a' ∈ (reroute s aid reason).1.agents, a'.id = aid ∧ a'.status = Status.failed := by
  obtain ⟨i, hi, hget⟩ := findIdx?_of_find? _ s.agents a hfind
  have hlt : i < s.agents.length := by
    rcases List.getElem?_eq_some_iff.mp hget with ⟨hl, _⟩
    exact hl
  have hbang : s.agents[i]! = a := by
    rw [getElem!_pos s.agents i hlt]
    rcases List.getElem?_eq_some_iff.mp hget with ⟨hl, hv⟩
    exact hv
  have hupd : updateAgent s.agents aid (fun x => { x with status := Status.failed }) =
      s.agents.set i { a with status := Status.failed } := by
    rw [updateAgent, hi]
    dsimp only
    rw [hbang]
  have hmem : { a with status := Status.failed } ∈
      updateAgent s.agents aid (fun x => { x with status := Status.failed }) := by
    rw [hupd]
    have hlt2 : i < (s.agents.set i { a with status := Status.failed }).length := by
      simpa using hlt
    have hset : (s.agents.set i { a with status := Status.failed })[i] =
        { a with status := Status.failed } := by
      simp
    have hm := List.getElem_mem hlt2
    rw [hset] at hm
    exact hm
  have hid : a.id = aid := by
    have hp := List.find?_some hfind
    simpa using hp
  refine ⟨?_, ?_, ?_, ?_, ?_⟩
  · simp only [reroute, hfind, hkey, if_pos hbudget]
  · simp only [reroute, hfind, hkey, if_pos hbudget]
  · simp only [reroute, hfind, hkey, if_pos hbudget]
  · simp only [reroute, hfind, hkey, if_pos hbudget, hupd, List.length_set]
  · simp only [reroute, hfind, hkey, if_pos hbudget]
    exact ⟨{ a with status := Status.failed }, hmem, hid, rfl⟩

/-- Claim C3 (amended, witness): the refusal properties at the concrete
exhausted state. -/
theorem reroute_exceeded_amended_witness :
    (reroute rerouteState "agent-1" "r").2 = false ∧
      (reroute rerouteState "agent-1" "r").1.taskRetryCounts = rerouteState.taskRetryCounts ∧
      (reroute rerouteState "agent-1" "r").1.agentCounter = rerouteState.agentCounter ∧
      (reroute rerouteState "agent-1" "r").1.agents.length = rerouteState.agents.length ∧
      ∃ a' ∈ (reroute rerouteState "agent-1" "r").1.agents,
        a'.id = "agent-1" ∧ a'.status = Status.failed :=
  reroute_exceeded_amended rerouteState "agent-1" "r" rerouteAgent "story:US-1"
    (by decide) (by decide) (by decide)

/-! ## Claim C6 — confidence bounds -/

theorem emaUp_bounds {c : ℚ} (h0 : 0 ≤ c) :
    0 ≤ min (c + 3/10 * (1 - c)) 1 ∧ min (c + 3/10 * (1 - c)) 1 ≤ 1 :=
  ⟨le_min (by nlinarith) (by norm_num), min_le_right _ _⟩

theorem emaDown_bounds {c : ℚ} (h1 : c ≤ 1) :
    0 ≤ max (c + 3/10 * (-1 - c)) 0 ∧ max (c + 3/10 * (-1 - c)) 0 ≤ 1 :=
  ⟨le_max_right _ _, max_le (by nlinarith) (by norm_num)⟩

theorem laplace_bounds (a b : ℚ) (ha : 0 < a) (hb : a ≤ b) :
    0 < a / b ∧ a / b ≤ 1 :=
  ⟨div_pos ha (lt_of_lt_of_le ha hb), (div_le_one (lt_of_lt_of_le ha hb)).mpr hb⟩

theorem boost_bounds {c : ℚ} (h0 : 0 < c) :
    0 < min (c + 1/10) 1 ∧ min (c + 1/10) 1 ≤ 1 :=
  ⟨lt_min (by linarith) (by norm_num), min_le_right _ _⟩

theorem confInv_mk (st₁ st₂ : Store) (hs : st₁.solutions = st₂.solutions)
    (hr : st₁.rules = st₂.rules) (h : ConfInv st₂) : ConfInv st₁ := by
  rw [ConfInv, hs, hr]; exact h

theorem mem_updRow {α} (l : List α) (i : Nat) (f : α → α) (x : α)
    (hx : x ∈ updRow l i f) : x ∈ l ∨ ∃ y ∈ l, x = f y := by
  rw [updRow] at hx
  cases hget : l[i]? with
  | none => rw [hget] at hx; exact Or.inl hx
  | some y =>
    rw [hget] at hx
    rcases List.mem_or_eq_of_mem_set hx with h | h
    · exact Or.inl h
    · refine Or.inr ⟨y, ?_, h⟩
      rcases List.getElem?_eq_some_iff.mp hget with ⟨hl, hv⟩
      exact hv ▸ List.getElem_mem hl

theorem confInv_foldl {β} (f : Store → β → Store) (l : List β)
    (hf : ∀ st b, ConfInv st → ConfInv (f st b)) :
    ∀ st, ConfInv st → ConfInv (l.foldl f st) := by
  induction l with
  | nil => intro st h; exact h
  | cons b t ih =>
    intro st h
    exact ih (f st b) (hf st b h)

theorem confInv_upsertRule (st : Store) (scope rule : String) (conf : ℚ)
    (source : Option String) (h : ConfInv st) (hc0 : 0 < conf) (hc1 : conf ≤ 1) :
    ConfInv (upsertRule st scope rule conf source) := by
  rw [upsertRule]
  cases hidx : st.rules.findIdx? (fun r => r.scope = scope && r.rule = rule) with
  | some i =>
    refine ⟨h.1, ?_⟩
    intro r hr
    rcases mem_updRow _ _ _ _ hr with hmem | ⟨y, hy, rfl⟩
    · exact h.2 r hmem
    · exact boost_bounds (h.2 y hy).1
  | none =>
    refine ⟨h.1, ?_⟩
    intro r hr
    rcases List.mem_append.mp hr with hmem | hmem
    · exact h.2 r hmem
    · rcases List.mem_singleton.mp hmem with rfl
      exact ⟨hc0, hc1⟩

theorem confInv_addCochange (st : Store) (a b : String) (h : ConfInv st) :
    ConfInv (addCochange st a b) := by
  rw [addCochange]
  cases st.files.findIdx? (fun f => f.path = a) with
  | none => exact h
  | some i => exact confInv_mk _ st rfl rfl h

theorem confInv_updateCochanges (st : Store) (files : List String) (h : ConfInv st) :
    ConfInv (updateCochanges st files) := by
  rw [updateCochanges]
  refine confInv_foldl _ _ ?_ st h
  intro st' p h'
  dsimp only
  split
  · exact confInv_addCochange _ _ _ (confInv_addCochange _ _ _ h')
  · exact h'

theorem confInv_touchFile (st : Store) (fp : String) (le : Option String)
    (h : ConfInv st) : ConfInv (touchFile st fp le) := by
  rw [touchFile]
  cases st.files.findIdx? (fun f => f.path = fp) with
  | none => exact confInv_mk _ st rfl rfl h
  | some i => exact confInv_mk _ st rfl rfl h


theorem confInv_successRunUpdate (agentId tk : String) (va : Nat) (st : Store)
    (h : ConfInv st) : ConfInv (successRunUpdate agentId tk va st) := by
  rw [successRunUpdate]
  cases findLastIdx? (fun run => run.agent_id = agentId && run.task_key = tk) st.runs with
  | some i => exact confInv_mk _ st rfl rfl h
  | none => exact h

theorem confInv_resolveSolution (filesTouched : List String) (agentId : String)
    (st : Store) (err : ErrRec) (h : ConfInv st) :
    ConfInv (resolveSolution filesTouched agentId st err) := by
  rw [resolveSolution]
  split
  · exact h
  · refine ⟨?_, ?_⟩
    · intro s hs
      rcases List.mem_map.mp hs with ⟨s₀, hs₀, rfl⟩
      by_cases hcond : (s₀.error_key = err.error_key && !s₀.resolved) = true
      · rw [if_pos hcond]
        exact emaUp_bounds (h.1 s₀ hs₀).1
      · rw [if_neg hcond]
        exact h.1 s₀ hs₀
    · intro r hr
      exact h.2 r hr

theorem confInv_ruleHitUpdate (st : Store) (ruleId : Nat) (h : ConfInv st) :
    ConfInv (ruleHitUpdate st ruleId) := by
  rw [ruleHitUpdate]
  refine ⟨h.1, ?_⟩
  intro r hr
  rcases List.mem_map.mp hr with ⟨r₀, hr₀, rfl⟩
  by_cases hcond : r₀.id = ruleId
  · rw [if_pos hcond]
    refine laplace_bounds _ _ (by positivity) ?_
    have : (0:ℚ) ≤ (r₀.misses : ℚ) := by positivity
    linarith
  · rw [if_neg hcond]
    exact h.2 r₀ hr₀

theorem confInv_weakenSolutions (st : Store) (fp : String) (h : ConfInv st) :
    ConfInv (weakenSolutions st fp) := by
  rw [weakenSolutions]
  refine ⟨?_, h.2⟩
  intro s hs
  rcases List.mem_map.mp hs with ⟨s₀, hs₀, rfl⟩
  by_cases hcond : (likeContains s₀.error_key fp && !s₀.resolved) = true
  · rw [if_pos hcond]
    exact emaDown_bounds (h.1 s₀ hs₀).2
  · rw [if_neg hcond]
    exact h.1 s₀ hs₀

theorem confInv_ruleMissUpdate (st : Store) (ruleId : Nat) (h : ConfInv st) :
    ConfInv (ruleMissUpdate st ruleId) := by
  rw [ruleMissUpdate]
  refine ⟨h.1, ?_⟩
  intro r hr
  rcases List.mem_map.mp hr with ⟨r₀, hr₀, rfl⟩
  by_cases hcond : r₀.id = ruleId
  · rw [if_pos hcond]
    refine laplace_bounds _ _ (by positivity) ?_
    have : (0:ℚ) ≤ (r₀.misses : ℚ) := by positivity
    linarith
  · rw [if_neg hcond]
    exact h.2 r₀ hr₀

theorem confInv_pruneRules (st : Store) (h : ConfInv st) : ConfInv (pruneRules st) := by
  rw [pruneRules]
  refine ⟨h.1, ?_⟩
  intro r hr
  exact h.2 r (List.mem_of_mem_filter hr)

theorem confInv_failureRunUpdate (agentId : String) (tk : Option String)
    (reason outcome : String) (filesTouched : List String) (st : Store)
    (h : ConfInv st) : ConfInv (failureRunUpdate agentId tk reason outcome filesTouched st) := by
  rw [failureRunUpdate.eq_def]
  split
  · exact h
  · dsimp only
    split
    · exact confInv_mk _ st rfl rfl h
    · exact confInv_mk _ st rfl rfl h

theorem confInv_deriveFailureRules (agentId k : String) (filesTouched : List String)
    (st : Store) (h : ConfInv st) : ConfInv (deriveFailureRules agentId k filesTouched st) := by
  rw [deriveFailureRules]
  refine confInv_foldl _ _ ?_ st h
  intro st' err h'
  dsimp only
  split
  · exact h'
  · exact confInv_upsertRule _ _ _ _ _
      (confInv_upsertRule _ _ _ _ _ h' (by norm_num) (by norm_num))
      (by norm_num) (by norm_num)

theorem confInv_recordSuccess (st : Store) (agentId tk : String)
    (filesTouched : List String) (verifyAttempts : Nat) (injectedRuleIds : List Nat)
    (h : ConfInv st) :
    ConfInv (recordSuccess st agentId tk filesTouched verifyAttempts injectedRuleIds) := by
  rw [recordSuccess]
  have h1 := confInv_successRunUpdate agentId tk verifyAttempts st h
  have h2 := confInv_foldl (resolveSolution filesTouched agentId)
    (latestRunErrors agentId tk (successRunUpdate agentId tk verifyAttempts st))
    (fun st' e h' => confInv_resolveSolution filesTouched agentId st' e h')
    (successRunUpdate agentId tk verifyAttempts st) h1
  have h3 := confInv_foldl ruleHitUpdate injectedRuleIds
    (fun st' i h' => confInv_ruleHitUpdate st' i h') _ h2
  have h4 := confInv_updateCochanges _ filesTouched h3
  split
  · exact confInv_upsertRule _ _ _ _ _ h4 (by norm_num) (by norm_num)
  · exact h4

theorem confInv_recordFailure (st : Store) (agentId : String) (tk : Option String)
    (reason outcome : String) (filesTouched : List String) (injectedRuleIds : List Nat)
    (h : ConfInv st) :
    ConfInv (recordFailure st agentId tk reason outcome filesTouched injectedRuleIds) := by
  rw [recordFailure.eq_def]
  dsimp only
  have h1 := confInv_failureRunUpdate agentId tk reason outcome filesTouched st h
  have h2 := confInv_foldl weakenSolutions filesTouched
    (fun st' f h' => confInv_weakenSolutions st' f h') _ h1
  have h3 := confInv_foldl ruleMissUpdate injectedRuleIds
    (fun st' i h' => confInv_ruleMissUpdate st' i h') _ h2
  have h4 := confInv_pruneRules _ h3
  split
  · exact h4
  · split
    · exact h4
    · exact confInv_deriveFailureRules agentId _ filesTouched _ h4

/-- Claim C6 (amended): under any sequence of `recordSuccess` /
`recordFailure` calls (rule upserts and boosts included), every
`solutions` confidence stays in the closed interval `[0, 1]` — as the
claim states — but every `repo_rules` confidence stays in the
half-open interval `(0, 1]`, not the open `(0, 1)`: the duplicate-upsert
boost `min(confidence + 0.1, 1.0)` attains `1` exactly. -/
theorem confidence_bounds_amended (st : Store) (calls : List MemCall)
    (h : ConfInv st) : ConfInv (applyMemCalls st calls) := by
  rw [applyMemCalls]
  refine confInv_foldl applyMemCall calls ?_ st h
  intro st' c h'
  cases c with
  | success a tk files va inj => exact confInv_recordSuccess st' a tk files va inj h'
  | failure a tk reason outcome files inj =>
    exact confInv_recordFailure st' a tk reason outcome files inj h'

/-- Claim C6 (amended, witness): the invariant holds along one concrete
success call from the empty store. -/
theorem confidence_bounds_amended_witness :
    ConfInv emptyStore ∧ ConfInv (applyMemCalls emptyStore [boostCall]) :=
  ⟨by decide, confidence_bounds_amended emptyStore [boostCall] (by decide)⟩

theorem runs_upsertRule (st : Store) (sc tx : String) (c : ℚ) (so : Option String) :
    (upsertRule st sc tx c so).runs = st.runs := by
  rw [upsertRule]
  cases st.rules.findIdx? (fun r => r.scope = sc && r.rule = tx) <;> rfl

theorem rules_upsertRule_insert (st : Store) (sc tx : String) (c : ℚ) (so : Option String)
    (h : st.rules = []) :
    (upsertRule st sc tx c so).rules =
      [{ id := st.nextRuleId, scope := sc, rule := tx, confidence := c
         source := so, hits := 0, misses := 0 }] := by
  rw [upsertRule, h]
  rfl

theorem rules_upsertRule_boost (st : Store) (R : RuleRow) (sc tx : String) (c : ℚ)
    (so : Option String) (h : st.rules = [R]) (hsc : R.scope = sc) (htx : R.rule = tx) :
    (upsertRule st sc tx c so).rules =
      [{ R with confidence := min (R.confidence + 1/10) 1
                source := match so with | some s => some s | none => R.source }] := by
  rw [upsertRule]
  have hidx : st.rules.findIdx? (fun r => r.scope = sc && r.rule = tx) = some 0 := by
    rw [h]
    simp [List.findIdx?_cons, hsc, htx]
  rw [hidx]
  dsimp only
  rw [h]
  rfl

theorem recordSuccess_boost (st : Store) (h : st.runs = []) :
    recordSuccess st "agent-1" "story:US-001" ["lib/auth.js"] 2 [] =
      upsertRule st "file:lib/auth.js"
        (multiAttemptRuleText "story:US-001" 2 ["lib/auth.js"]) (3/5)
        (some ("agent-1" ++ " on " ++ "story:US-001")) := by
  have hsru : successRunUpdate "agent-1" "story:US-001" 2 st = st := by
    rw [successRunUpdate, h]
    rfl
  have hlre : latestRunErrors "agent-1" "story:US-001" st = [] := by
    rw [latestRunErrors, h]
    rfl
  have hcc : updateCochanges st ["lib/auth.js"] = st := rfl
  rw [recordSuccess]
  rw [hsru, hlre]
  dsimp only [List.foldl]
  rw [hcc, if_pos (by exact ⟨by norm_num, by simp⟩)]
  rfl

/-- Claim C6 (counterexample): five identical `recordSuccess` calls (two
verify attempts, one touched file) drive the derived rule's confidence
to exactly `1` through the duplicate-upsert boost path
`min(confidence + 0.1, 1.0)`: `0.6 → 0.7 → 0.8 → 0.9 → 1.0`, escaping
the claimed open interval `(0, 1)`. -/
theorem rule_confidence_reaches_one_counterexample :
    ((applyMemCalls emptyStore (List.replicate 5 boostCall)).rules.map (·.confidence)) =
        [1] ∧
      ∃ r ∈ (applyMemCalls emptyStore (List.replicate 5 boostCall)).rules,
        ¬(0 < r.confidence ∧ r.confidence < 1) := by
  have hrep : List.replicate 5 boostCall =
      [boostCall, boostCall, boostCall, boostCall, boostCall] := rfl
  have hac : ∀ st : Store, applyMemCall st boostCall =
      recordSuccess st "agent-1" "story:US-001" ["lib/auth.js"] 2 [] := fun _ => rfl
  have hstep : ∀ st : Store, st.runs = [] →
      applyMemCall st boostCall =
        upsertRule st "file:lib/auth.js"
          (multiAttemptRuleText "story:US-001" 2 ["lib/auth.js"]) (3/5)
          (some ("agent-1" ++ " on " ++ "story:US-001")) := by
    intro st hst
    rw [hac st]
    exact recordSuccess_boost st hst
  have hrunsU : ∀ st : Store, st.runs = [] →
      (upsertRule st "file:lib/auth.js"
        (multiAttemptRuleText "story:US-001" 2 ["lib/auth.js"]) (3/5)
        (some ("agent-1" ++ " on " ++ "story:US-001"))).runs = [] := by
    intro st hst
    rw [runs_upsertRule, hst]
  have hfold : applyMemCalls emptyStore (List.replicate 5 boostCall) =
      applyMemCall (applyMemCall (applyMemCall (applyMemCall
        (applyMemCall emptyStore boostCall) boostCall) boostCall) boostCall) boostCall := by
    rw [hrep]
    rfl
  -- state chain
  have h1 := hstep emptyStore rfl
  have h1runs : (applyMemCall emptyStore boostCall).runs = [] := by
    rw [h1]; exact hrunsU emptyStore rfl
  have h2 := hstep _ h1runs
  have h2runs : (applyMemCall (applyMemCall emptyStore boostCall) boostCall).runs = [] := by
    rw [h2]; exact hrunsU _ h1runs
  have h3 := hstep _ h2runs
  have h3runs : (applyMemCall (applyMemCall (applyMemCall emptyStore boostCall)
      boostCall) boostCall).runs = [] := by
    rw [h3]; exact hrunsU _ h2runs
  have h4 := hstep _ h3runs
  have h4runs : (applyMemCall (applyMemCall (applyMemCall (applyMemCall emptyStore
      boostCall) boostCall) boostCall) boostCall).runs = [] := by
    rw [h4]; exact hrunsU _ h3runs
  have h5 := hstep _ h4runs
  -- rules chain
  have r1 : (applyMemCall emptyStore boostCall).rules =
      [{ id := 1, scope := "file:lib/auth.js"
         rule := multiAttemptRuleText "story:US-001" 2 ["lib/auth.js"]
         confidence := 3/5
         source := some ("agent-1" ++ " on " ++ "story:US-001"), hits := 0, misses := 0 }] := by
    rw [h1]
    exact rules_upsertRule_insert _ _ _ _ _ rfl
  have r2 : (applyMemCall (applyMemCall emptyStore boostCall) boostCall).rules =
      [{ id := 1, scope := "file:lib/auth.js"
         rule := multiAttemptRuleText "story:US-001" 2 ["lib/auth.js"]
         confidence := 7/10
         source := some ("agent-1" ++ " on " ++ "story:US-001"), hits := 0, misses := 0 }] := by
    rw [h2, rules_upsertRule_boost _ _ _ _ _ _ r1 rfl rfl]
    norm_num
  have r3 : (applyMemCall (applyMemCall (applyMemCall emptyStore boostCall) boostCall)
      boostCall).rules =
      [{ id := 1, scope := "file:lib/auth.js"
         rule := multiAttemptRuleText "story:US-001" 2 ["lib/auth.js"]
         confidence := 4/5
         source := some ("agent-1" ++ " on " ++ "story:US-001"), hits := 0, misses := 0 }] := by
    rw [h3, rules_upsertRule_boost _ _ _ _ _ _ r2 rfl rfl]
    norm_num
  have r4 : (applyMemCall (applyMemCall (applyMemCall (applyMemCall emptyStore boostCall)
      boostCall) boostCall) boostCall).rules =
      [{ id := 1, scope := "file:lib/auth.js"
         rule := multiAttemptRuleText "story:US-001" 2 ["lib/auth.js"]
         confidence := 9/10
         source := some ("agent-1" ++ " on " ++ "story:US-001"), hits := 0, misses := 0 }] := by
    rw [h4, rules_upsertRule_boost _ _ _ _ _ _ r3 rfl rfl]
    norm_num
  have r5 : (applyMemCalls emptyStore (List.replicate 5 boostCall)).rules =
      [{ id := 1, scope := "file:lib/auth.js"
         rule := multiAttemptRuleText "story:US-001" 2 ["lib/auth.js"]
         confidence := 1
         source := some ("agent-1" ++ " on " ++ "story:US-001"), hits := 0, misses := 0 }] := by
    rw [hfold, h5, rules_upsertRule_boost _ _ _ _ _ _ r4 rfl rfl]
    norm_num
  constructor
  · rw [r5]
    rfl
  · refine ⟨_, by rw [r5]; exact List.mem_singleton.mpr rfl, ?_⟩
    intro hcontra
    exact absurd hcontra.2 (by norm_num)

theorem skipWs_cons_not_ws (c : Char) (t : List Char) (h : isWsChar c = false) :
    skipWs (c :: t) = c :: t := by
  rw [skipWs, List.dropWhile_cons]
  simp [h]

theorem skipWs_ws_append (w t : List Char) (hw : ∀ c ∈ w, isWsChar c = true) :
    skipWs (w ++ t) = skipWs t := by
  induction w with
  | nil => rfl
  | cons c w' ih =>
    rw [List.cons_append, skipWs, List.dropWhile_cons,
      if_pos (hw c (List.mem_cons_self c w'))]
    exact ih (fun d hd => hw d (List.mem_cons_of_mem c hd))

theorem spaces_all_ws (n : Nat) : ∀ c ∈ spaces n, isWsChar c = true := by
  intro c hc
  rw [spaces] at hc
  rw [List.eq_of_mem_replicate hc]
  decide

theorem nl_spaces_all_ws (n : Nat) : ∀ c ∈ ('\n' :: spaces n), isWsChar c = true := by
  intro c hc
  rcases List.mem_cons.mp hc with h | h
  · rw [h]; decide
  · exact spaces_all_ws n c h

theorem dtn_nil (a : Nat) : digitsToNat a [] = a := rfl

theorem dtn_cons (a : Nat) (c : Char) (l : List Char) :
    digitsToNat a (c :: l) = digitsToNat (a * 10 + (c.toNat - '0'.toNat)) l := rfl

theorem digitsToNat_append (l2 l1 : List Char) :
    ∀ a, digitsToNat a (l1 ++ l2) = digitsToNat (digitsToNat a l1) l2 := by
  induction l1 with
  | nil => intro a; rfl
  | cons c t ih =>
    intro a
    rw [List.cons_append, dtn_cons, dtn_cons]
    exact ih _

set_option maxHeartbeats 1000000 in
theorem digitChar_spec (m : Nat) (hm : m < 10) :
    (Char.ofNat ('0'.toNat + m)).isDigit = true ∧
      (Char.ofNat ('0'.toNat + m)).toNat = '0'.toNat + m := by
  interval_cases m <;> exact ⟨by decide, by decide⟩

theorem natToDigitsAux_spec (fuel : Nat) : ∀ (n : Nat) (acc : List Char),
    n < 10 ^ (fuel + 1) →
    ∃ ds, natToDigitsAux (fuel + 1) n acc = ds ++ acc ∧ ds ≠ [] ∧
      (∀ c ∈ ds, c.isDigit = true) ∧ (∀ a, digitsToNat a ds = a * 10 ^ ds.length + n) := by
  induction fuel with
  | zero =>
    intro n acc hn
    rw [pow_one] at hn
    refine ⟨[Char.ofNat ('0'.toNat + n % 10)], ?_, by simp, ?_, ?_⟩
    · rw [natToDigitsAux, if_pos hn]
      rfl
    · intro c hc
      rw [List.mem_singleton] at hc
      rw [hc]
      exact (digitChar_spec (n % 10) (Nat.mod_lt _ (by norm_num))).1
    · intro a
      rw [dtn_cons, dtn_nil, (digitChar_spec (n % 10) (Nat.mod_lt _ (by norm_num))).2]
      have hmod : n % 10 = n := Nat.mod_eq_of_lt hn
      rw [List.length_singleton, pow_one]
      omega
  | succ f ih =>
    intro n acc hn
    by_cases h10 : n < 10
    · refine ⟨[Char.ofNat ('0'.toNat + n % 10)], ?_, by simp, ?_, ?_⟩
      · rw [natToDigitsAux, if_pos h10]
        rfl
      · intro c hc
        rw [List.mem_singleton] at hc
        rw [hc]
        exact (digitChar_spec (n % 10) (Nat.mod_lt _ (by norm_num))).1
      · intro a
        rw [dtn_cons, dtn_nil, (digitChar_spec (n % 10) (Nat.mod_lt _ (by norm_num))).2]
        have hmod : n % 10 = n := Nat.mod_eq_of_lt h10
        rw [List.length_singleton, pow_one]
        omega
    · have hdiv : n / 10 < 10 ^ (f + 1) := by
        have hmul : n < 10 ^ (f + 1) * 10 := by
          rw [← pow_succ]
          exact hn
        exact Nat.div_lt_of_lt_mul (by omega)
      obtain ⟨ds', heq, hne, hdig, hval⟩ := ih (n / 10) (Char.ofNat ('0'.toNat + n % 10) :: acc) hdiv
      refine ⟨ds' ++ [Char.ofNat ('0'.toNat + n % 10)], ?_, by simp, ?_, ?_⟩
      · rw [natToDigitsAux, if_neg h10, heq, List.append_cons]
      · intro c hc
        rcases List.mem_append.mp hc with h | h
        · exact hdig c h
        · rw [List.mem_singleton] at h
          rw [h]
          exact (digitChar_spec (n % 10) (Nat.mod_lt _ (by norm_num))).1
      · intro a
        rw [digitsToNat_append, hval, dtn_cons, dtn_nil]
        rw [(digitChar_spec (n % 10) (Nat.mod_lt _ (by norm_num))).2, List.length_append,
          List.length_singleton]
        have hstep : '0'.toNat + n % 10 - '0'.toNat = n % 10 := by omega
        rw [hstep, pow_succ]
        have hdm : n / 10 * 10 + n % 10 = n := by omega
        calc (a * 10 ^ ds'.length + n / 10) * 10 + n % 10
            = a * (10 ^ ds'.length * 10) + (n / 10 * 10 + n % 10) := by ring
          _ = a * (10 ^ ds'.length * 10) + n := by rw [hdm]

theorem natToDigits_spec (n : Nat) :
    ∃ ds, natToDigits n = ds ∧ ds ≠ [] ∧ (∀ c ∈ ds, c.isDigit = true) ∧
      digitsToNat 0 ds = n := by
  have hlt : n < 10 ^ (n + 1) :=
    lt_of_lt_of_le (Nat.lt_pow_self (by norm_num) n)
      (Nat.pow_le_pow_right (by norm_num) (Nat.le_succ n))
  obtain ⟨ds, heq, hne, hdig, hval⟩ := natToDigitsAux_spec n n [] hlt
  refine ⟨ds, ?_, hne, hdig, ?_⟩
  · rw [natToDigits, heq, List.append_nil]
  · have := hval 0
    simpa using this

theorem isDigit_not_ws (c : Char) (h : c.isDigit = true) : isWsChar c = false := by
  cases hw : isWsChar c with
  | false => rfl
  | true =>
    rw [isWsChar] at hw
    simp only [Bool.or_eq_true, decide_eq_true_eq] at hw
    rcases hw with ((rfl | rfl) | rfl) | rfl <;> exact absurd h (by decide)

theorem takeWhile_digits (ds rest : List Char) (hds : ∀ c ∈ ds, c.isDigit = true)
    (hr : ∀ c, rest.head? = some c → c.isDigit = false) :
    (ds ++ rest).takeWhile (fun c => c.isDigit) = ds := by
  induction ds with
  | nil =>
    cases rest with
    | nil => rfl
    | cons c t =>
      rw [List.nil_append, List.takeWhile_cons, hr c rfl]
      rfl
  | cons d ds' ih =>
    rw [List.cons_append, List.takeWhile_cons, hds d (List.mem_cons_self d ds')]
    rw [ih (fun c hc => hds c (List.mem_cons_of_mem d hc))]
    rfl

theorem parseIntNum_print (n : Int) (rest : List Char)
    (hr : ∀ c, rest.head? = some c → c.isDigit = false) :
    parseIntNum (intRepr n ++ rest) = some (n, rest) := by
  rw [intRepr]
  by_cases hn : n < 0
  · rw [if_pos hn]
    obtain ⟨ds, hds, hne, hdig, hval⟩ := natToDigits_spec (-n).toNat
    rw [hds, List.cons_append]
    conv_lhs => rw [parseIntNum.eq_def]
    split
    · next rest' heq =>
      injection heq with h1 h2
      rw [← h2, takeWhile_digits ds rest hdig hr, if_neg hne, hval, List.drop_left]
      have hcast : -(((-n).toNat : Int)) = n := by omega
      rw [hcast]
    · next h =>
      exact absurd rfl (h (ds ++ rest))
  · rw [if_neg hn]
    obtain ⟨ds, hds, hne, hdig, hval⟩ := natToDigits_spec n.toNat
    obtain ⟨c, t, rfl⟩ := List.exists_cons_of_ne_nil hne
    rw [hds, List.cons_append]
    conv_lhs => rw [parseIntNum.eq_def]
    split
    · next rest' heq =>
      injection heq with h1 h2
      have := hdig c (List.mem_cons_self c t)
      rw [h1] at this
      exact absurd this (by decide)
    · next h =>
      rw [← List.cons_append, takeWhile_digits (c :: t) rest hdig hr,
        if_neg hne, hval, List.drop_left]
      have hcast : ((n.toNat : Int)) = n := by omega
      rw [hcast]

theorem intRepr_head (n : Int) :
    ∃ c t, intRepr n = c :: t ∧ (c.isDigit = true ∨ c = '-') := by
  rw [intRepr]
  by_cases hn : n < 0
  · rw [if_pos hn]
    exact ⟨'-', natToDigits (-n).toNat, rfl, Or.inr rfl⟩
  · rw [if_neg hn]
    obtain ⟨ds, hds, hne, hdig, _⟩ := natToDigits_spec n.toNat
    obtain ⟨c, t, rfl⟩ := List.exists_cons_of_ne_nil hne
    exact ⟨c, t, hds, Or.inl (hdig c (List.mem_cons_self c t))⟩

set_option maxHeartbeats 1600000 in
theorem hexVal_hexDigit (m : Nat) (hm : m < 16) : hexVal (hexDigit m) = some m := by
  interval_cases m <;> decide

theorem charOfNatAux_toNat (c : Char) (h : c.toNat.isValidChar) :
    Char.ofNatAux c.toNat h = c := by
  have hc := Char.ofNat_toNat c
  rw [Char.ofNat] at hc
  rw [dif_pos h] at hc
  exact hc

theorem escStr_cons (c : Char) (s : List Char) :
    escStr (c :: s) = escChar c ++ escStr s := rfl

theorem psb_q (t : List Char) :
    parseStrBody ('\\' :: '"' :: t) = (parseStrBody t).map (fun p => ('"' :: p.1, p.2)) := rfl

theorem psb_bs (t : List Char) :
    parseStrBody ('\\' :: '\\' :: t) =
      (parseStrBody t).map (fun p => ('\\' :: p.1, p.2)) := rfl

theorem psb_b (t : List Char) :
    parseStrBody ('\\' :: 'b' :: t) =
      (parseStrBody t).map (fun p => ('\x08' :: p.1, p.2)) := rfl

theorem psb_t (t : List Char) :
    parseStrBody ('\\' :: 't' :: t) =
      (parseStrBody t).map (fun p => ('\x09' :: p.1, p.2)) := rfl

theorem psb_n (t : List Char) :
    parseStrBody ('\\' :: 'n' :: t) =
      (parseStrBody t).map (fun p => ('\x0a' :: p.1, p.2)) := rfl

theorem psb_f (t : List Char) :
    parseStrBody ('\\' :: 'f' :: t) =
      (parseStrBody t).map (fun p => ('\x0c' :: p.1, p.2)) := rfl

theorem psb_r (t : List Char) :
    parseStrBody ('\\' :: 'r' :: t) =
      (parseStrBody t).map (fun p => ('\x0d' :: p.1, p.2)) := rfl

theorem psb_u (a b c d : Char) (t : List Char) :
    parseStrBody ('\\' :: 'u' :: a :: b :: c :: d :: t) =
      (match hexVal a, hexVal b, hexVal c, hexVal d with
       | some x1, some x2, some x3, some x4 =>
         let n := ((x1 * 16 + x2) * 16 + x3) * 16 + x4
         if hv : n.isValidChar then
           (parseStrBody t).map (fun p => (Char.ofNatAux n hv :: p.1, p.2))
         else none
       | _, _, _, _ => none) := rfl

set_option maxHeartbeats 4000000 in
theorem parseStrBody_print (s rest : List Char) :
    parseStrBody (escStr s ++ ('"' :: rest)) = some (s, rest) := by
  induction s with
  | nil => rfl
  | cons c s' ih =>
    rw [escStr_cons, List.append_assoc, escChar]
    split_ifs with h1 h2 h3 h4 h5 h6 h7 h8
    · subst h1
      simp only [List.cons_append, List.nil_append]
      rw [psb_q, ih]
      rfl
    · subst h2
      simp only [List.cons_append, List.nil_append]
      rw [psb_bs, ih]
      rfl
    · subst h3
      simp only [List.cons_append, List.nil_append]
      rw [psb_b, ih]
      rfl
    · subst h4
      simp only [List.cons_append, List.nil_append]
      rw [psb_t, ih]
      rfl
    · subst h5
      simp only [List.cons_append, List.nil_append]
      rw [psb_n, ih]
      rfl
    · subst h6
      simp only [List.cons_append, List.nil_append]
      rw [psb_f, ih]
      rfl
    · subst h7
      simp only [List.cons_append, List.nil_append]
      rw [psb_r, ih]
      rfl
    · simp only [List.cons_append, List.nil_append]
      rw [psb_u]
      rw [hexVal_hexDigit (c.toNat / 16) (by omega), hexVal_hexDigit (c.toNat % 16) (by omega)]
      rw [show hexVal '0' = some 0 from rfl]
      dsimp only
      have hn : ((0 * 16 + 0) * 16 + c.toNat / 16) * 16 + c.toNat % 16 = c.toNat := by omega
      rw [hn]
      have hv : c.toNat.isValidChar := Or.inl (by omega)
      rw [dif_pos hv, ih, charOfNatAux_toNat c hv]
      rfl
    · simp only [List.cons_append, List.nil_append]
      rw [parseStrBody.eq_def]
      split
      · next heq => exact (List.cons_ne_nil _ _ heq).elim
      · next r heq =>
        injection heq with hc _
        exact absurd hc h1
      · next esc heq =>
        injection heq with hc _
        exact absurd hc h2
      · next c' r heq =>
        injection heq with hc hx
        rw [← hc, ← hx, if_neg h8, ih]
        rfl

set_option maxHeartbeats 4000000 in
theorem pv_null (f : Nat) (s rest : List Char)
    (h : skipWs s = 'n' :: 'u' :: 'l' :: 'l' :: rest) :
    parseVal (f + 1) s = some (Json.jnull, rest) := by
  rw [parseVal.eq_def]
  dsimp only
  rw [h]
  split <;> simp_all

theorem pv_true (f : Nat) (s rest : List Char)
    (h : skipWs s = 't' :: 'r' :: 'u' :: 'e' :: rest) :
    parseVal (f + 1) s = some (Json.jbool true, rest) := by
  rw [parseVal.eq_def]
  dsimp only
  rw [h]
  split <;> simp_all

theorem pv_false (f : Nat) (s rest : List Char)
    (h : skipWs s = 'f' :: 'a' :: 'l' :: 's' :: 'e' :: rest) :
    parseVal (f + 1) s = some (Json.jbool false, rest) := by
  rw [parseVal.eq_def]
  dsimp only
  rw [h]
  split <;> simp_all

theorem pv_str (f : Nat) (s rest cs r : List Char)
    (h : skipWs s = '"' :: rest) (h2 : parseStrBody rest = some (cs, r)) :
    parseVal (f + 1) s = some (Json.jstr cs, r) := by
  rw [parseVal.eq_def]
  dsimp only
  rw [h]
  split <;> simp_all

theorem pv_arr_nil (f : Nat) (s r1 r2 : List Char)
    (h : skipWs s = '[' :: r1) (h2 : skipWs r1 = ']' :: r2) :
    parseVal (f + 1) s = some (Json.jarr JsonList.nil, r2) := by
  rw [parseVal.eq_def]
  dsimp only
  rw [h]
  split
  · rename_i heq; simp at heq
  · rename_i heq; simp at heq
  · rename_i heq; simp at heq
  · rename_i heq; simp at heq
  · rename_i rest' heq
    injection heq with _ hr
    subst hr
    rw [h2]
    split <;> simp_all
  · rename_i heq; simp at heq
  · simp_all

theorem pv_obj_nil (f : Nat) (s r1 r2 : List Char)
    (h : skipWs s = '{' :: r1) (h2 : skipWs r1 = '}' :: r2) :
    parseVal (f + 1) s = some (Json.jobj JsonObj.nil, r2) := by
  rw [parseVal.eq_def]
  dsimp only
  rw [h]
  split
  · rename_i heq; simp at heq
  · rename_i heq; simp at heq
  · rename_i heq; simp at heq
  · rename_i heq; simp at heq
  · rename_i heq; simp at heq
  · rename_i rest' heq
    injection heq with _ hr
    subst hr
    rw [h2]
    split <;> simp_all
  · simp_all

theorem pv_arr_cons (f : Nat) (s r1 t r3 : List Char) (c : Char) (xs : JsonList)
    (h : skipWs s = '[' :: r1) (h2 : skipWs r1 = c :: t) (hc : c ≠ ']')
    (h3 : parseItems f r1 = some (xs, r3)) :
    parseVal (f + 1) s = some (Json.jarr xs, r3) := by
  rw [parseVal.eq_def]
  dsimp only
  rw [h]
  split
  · rename_i heq; simp at heq
  · rename_i heq; simp at heq
  · rename_i heq; simp at heq
  · rename_i heq; simp at heq
  · rename_i rest' heq
    injection heq with _ hr
    subst hr
    rw [h2]
    split
    · rename_i heq2
      injection heq2 with hc2 _
      exact absurd hc2 hc
    · rw [h3]
      rfl
  · rename_i heq; simp at heq
  · simp_all

theorem pv_obj_cons (f : Nat) (s r1 t r3 : List Char) (c : Char) (kvs : JsonObj)
    (h : skipWs s = '{' :: r1) (h2 : skipWs r1 = c :: t) (hc : c ≠ '}')
    (h3 : parseMembers f r1 = some (kvs, r3)) :
    parseVal (f + 1) s = some (Json.jobj kvs, r3) := by
  rw [parseVal.eq_def]
  dsimp only
  rw [h]
  split
  · rename_i heq; simp at heq
  · rename_i heq; simp at heq
  · rename_i heq; simp at heq
  · rename_i heq; simp at heq
  · rename_i heq; simp at heq
  · rename_i rest' heq
    injection heq with _ hr
    subst hr
    rw [h2]
    split
    · rename_i heq2
      injection heq2 with hc2 _
      exact absurd hc2 hc
    · rw [h3]
      rfl
  · simp_all

theorem pv_num (f : Nat) (s t : List Char) (c : Char) (n : Int) (r : List Char)
    (h : skipWs s = c :: t) (hc : c.isDigit = true ∨ c = '-')
    (h2 : parseIntNum (c :: t) = some (n, r)) :
    parseVal (f + 1) s = some (Json.jnum n, r) := by
  rw [parseVal.eq_def]
  dsimp only
  rw [h]
  split
  · rename_i heq
    injection heq with ha _
    rw [ha] at hc
    rcases hc with hd | hm
    · exact absurd hd (by decide)
    · exact absurd hm (by decide)
  · rename_i heq
    injection heq with ha _
    rw [ha] at hc
    rcases hc with hd | hm
    · exact absurd hd (by decide)
    · exact absurd hm (by decide)
  · rename_i heq
    injection heq with ha _
    rw [ha] at hc
    rcases hc with hd | hm
    · exact absurd hd (by decide)
    · exact absurd hm (by decide)
  · rename_i heq
    injection heq with ha _
    rw [ha] at hc
    rcases hc with hd | hm
    · exact absurd hd (by decide)
    · exact absurd hm (by decide)
  · rename_i heq
    injection heq with ha _
    rw [ha] at hc
    rcases hc with hd | hm
    · exact absurd hd (by decide)
    · exact absurd hm (by decide)
  · rename_i heq
    injection heq with ha _
    rw [ha] at hc
    rcases hc with hd | hm
    · exact absurd hd (by decide)
    · exact absurd hm (by decide)
  · rw [h2]
    rfl

theorem pi_last (f : Nat) (s r r2 : List Char) (v : Json)
    (h : parseVal f s = some (v, r)) (h2 : skipWs r = ']' :: r2) :
    parseItems (f + 1) s = some (JsonList.cons v JsonList.nil, r2) := by
  rw [parseItems.eq_def]
  dsimp only
  rw [h]
  dsimp only
  rw [h2]
  split <;> simp_all

theorem pi_cons (f : Nat) (s r r2 r3 : List Char) (v : Json) (xs : JsonList)
    (h : parseVal f s = some (v, r)) (h2 : skipWs r = ',' :: r2)
    (h3 : parseItems f r2 = some (xs, r3)) :
    parseItems (f + 1) s = some (JsonList.cons v xs, r3) := by
  rw [parseItems.eq_def]
  dsimp only
  rw [h]
  dsimp only
  rw [h2]
  split <;> simp_all

theorem pm_last (f : Nat) (s rest r r2 r3 r4 k : List Char) (v : Json)
    (h : skipWs s = '"' :: rest) (h1 : parseStrBody rest = some (k, r))
    (h2 : skipWs r = ':' :: r2) (h3 : parseVal f r2 = some (v, r3))
    (h4 : skipWs r3 = '}' :: r4) :
    parseMembers (f + 1) s = some (JsonObj.cons k v JsonObj.nil, r4) := by
  rw [parseMembers.eq_def]
  dsimp only
  rw [h]
  split
  · rename_i rest' heq
    injection heq with _ hr
    subst hr
    rw [h1]
    dsimp only
    rw [h2]
    split
    · rename_i r2' heq2
      injection heq2 with _ hr2
      subst hr2
      rw [h3]
      dsimp only
      rw [h4]
      split <;> simp_all
    · simp_all
  · simp_all

theorem pm_cons (f : Nat) (s rest r r2 r3 r4 r5 k : List Char) (v : Json) (kvs : JsonObj)
    (h : skipWs s = '"' :: rest) (h1 : parseStrBody rest = some (k, r))
    (h2 : skipWs r = ':' :: r2) (h3 : parseVal f r2 = some (v, r3))
    (h4 : skipWs r3 = ',' :: r4) (h5 : parseMembers f r4 = some (kvs, r5)) :
    parseMembers (f + 1) s = some (JsonObj.cons k v kvs, r5) := by
  rw [parseMembers.eq_def]
  dsimp only
  rw [h]
  split
  · rename_i rest' heq
    injection heq with _ hr
    subst hr
    rw [h1]
    dsimp only
    rw [h2]
    split
    · rename_i r2' heq2
      injection heq2 with _ hr2
      subst hr2
      rw [h3]
      dsimp only
      rw [h4]
      split <;> simp_all
    · simp_all
  · simp_all

theorem sA_null (ind : Nat) : stringifyAt ind Json.jnull = ['n', 'u', 'l', 'l'] := rfl

theorem sA_true (ind : Nat) : stringifyAt ind (Json.jbool true) = ['t', 'r', 'u', 'e'] := rfl

theorem sA_false (ind : Nat) :
    stringifyAt ind (Json.jbool false) = ['f', 'a', 'l', 's', 'e'] := rfl

theorem sA_num (ind : Nat) (n : Int) : stringifyAt ind (Json.jnum n) = intRepr n := rfl

theorem sA_str (ind : Nat) (s : List Char) :
    stringifyAt ind (Json.jstr s) = quoteStr s := rfl

theorem sA_arr_nil (ind : Nat) : stringifyAt ind (Json.jarr JsonList.nil) = ['[', ']'] := rfl

theorem sA_arr_cons (ind : Nat) (x : Json) (xs : JsonList) :
    stringifyAt ind (Json.jarr (JsonList.cons x xs)) =
      '[' :: '\n' :: spaces (ind + 2) ++ stringifyAt (ind + 2) x ++
        stringifyItems (ind + 2) xs ++ '\n' :: spaces ind ++ [']'] := rfl

theorem sA_obj_nil (ind : Nat) : stringifyAt ind (Json.jobj JsonObj.nil) = ['{', '}'] := rfl

theorem sA_obj_cons (ind : Nat) (k : List Char) (v : Json) (kvs : JsonObj) :
    stringifyAt ind (Json.jobj (JsonObj.cons k v kvs)) =
      '{' :: '\n' :: spaces (ind + 2) ++ quoteStr k ++ ':' :: ' ' ::
        stringifyAt (ind + 2) v ++ stringifyMembers (ind + 2) kvs ++
        '\n' :: spaces ind ++ ['}'] := rfl

theorem sI_nil (ind : Nat) : stringifyItems ind JsonList.nil = [] := rfl

theorem sI_cons (ind : Nat) (x : Json) (xs : JsonList) :
    stringifyItems ind (JsonList.cons x xs) =
      ',' :: '\n' :: spaces ind ++ stringifyAt ind x ++ stringifyItems ind xs := rfl

theorem sM_nil (ind : Nat) : stringifyMembers ind JsonObj.nil = [] := rfl

theorem sM_cons (ind : Nat) (k : List Char) (v : Json) (kvs : JsonObj) :
    stringifyMembers ind (JsonObj.cons k v kvs) =
      ',' :: '\n' :: spaces ind ++ quoteStr k ++ ':' :: ' ' ::
        stringifyAt ind v ++ stringifyMembers ind kvs := rfl

theorem fN_null : fuelNeeded Json.jnull = 1 := rfl

theorem fN_bool (b : Bool) : fuelNeeded (Json.jbool b) = 1 := rfl

theorem fN_num (n : Int) : fuelNeeded (Json.jnum n) = 1 := rfl

theorem fN_str (s : List Char) : fuelNeeded (Json.jstr s) = 1 := rfl

theorem fN_arr (xs : JsonList) : fuelNeeded (Json.jarr xs) = 1 + fuelNeededList xs := rfl

theorem fN_obj (kvs : JsonObj) : fuelNeeded (Json.jobj kvs) = 1 + fuelNeededObj kvs := rfl

theorem fNL_nil : fuelNeededList JsonList.nil = 0 := rfl

theorem fNL_cons (x : Json) (xs : JsonList) :
    fuelNeededList (JsonList.cons x xs) = 1 + fuelNeeded x + fuelNeededList xs := rfl

theorem fNO_nil : fuelNeededObj JsonObj.nil = 0 := rfl

theorem fNO_cons (k : List Char) (v : Json) (kvs : JsonObj) :
    fuelNeededObj (JsonObj.cons k v kvs) = 1 + fuelNeeded v + fuelNeededObj kvs := rfl

theorem fuelNeeded_pos (v : Json) : 1 ≤ fuelNeeded v := by
  cases v with
  | jnull => rw [fN_null]
  | jbool b => rw [fN_bool]
  | jnum n => rw [fN_num]
  | jstr s => rw [fN_str]
  | jarr xs => rw [fN_arr]; omega
  | jobj kvs => rw [fN_obj]; omega

theorem quoteStr_cons (s : List Char) : quoteStr s = '"' :: (escStr s ++ ['"']) := rfl

theorem stringifyAt_head (ind : Nat) (v : Json) :
    ∃ c t, stringifyAt ind v = c :: t ∧ isWsChar c = false ∧ c ≠ ']' ∧ c ≠ '}' := by
  cases v with
  | jnull => exact ⟨'n', _, sA_null ind, by decide, by decide, by decide⟩
  | jbool b =>
    cases b with
    | true => exact ⟨'t', _, sA_true ind, by decide, by decide, by decide⟩
    | false => exact ⟨'f', _, sA_false ind, by decide, by decide, by decide⟩
  | jnum n =>
    obtain ⟨c, t, hct, hc⟩ := intRepr_head n
    refine ⟨c, t, by rw [sA_num]; exact hct, ?_, ?_, ?_⟩
    · rcases hc with hd | hm
      · exact isDigit_not_ws c hd
      · rw [hm]; decide
    · rcases hc with hd | hm
      · intro hcc; rw [hcc] at hd; exact absurd hd (by decide)
      · rw [hm]; decide
    · rcases hc with hd | hm
      · intro hcc; rw [hcc] at hd; exact absurd hd (by decide)
      · rw [hm]; decide
  | jstr s => exact ⟨'"', _, quoteStr_cons s, by decide, by decide, by decide⟩
  | jarr xs =>
    cases xs with
    | nil => exact ⟨'[', _, sA_arr_nil ind, by decide, by decide, by decide⟩
    | cons x xs' => exact ⟨'[', _, sA_arr_cons ind x xs', by decide, by decide, by decide⟩
  | jobj kvs =>
    cases kvs with
    | nil => exact ⟨'{', _, sA_obj_nil ind, by decide, by decide, by decide⟩
    | cons k v' kvs' =>
      exact ⟨'{', _, sA_obj_cons ind k v' kvs', by decide, by decide, by decide⟩

theorem rg_items (ind : Nat) (xs : JsonList) (t : List Char) :
    ∀ c, (stringifyItems ind xs ++ '\n' :: t).head? = some c → c.isDigit = false := by
  cases xs with
  | nil =>
    intro c hc
    rw [sI_nil, List.nil_append, List.head?_cons] at hc
    injection hc with hc
    rw [← hc]
    decide
  | cons y ys =>
    intro c hc
    simp only [sI_cons, List.cons_append, List.append_assoc, List.head?_cons] at hc
    injection hc with hc
    rw [← hc]
    decide

theorem rg_members (ind : Nat) (kvs : JsonObj) (t : List Char) :
    ∀ c, (stringifyMembers ind kvs ++ '\n' :: t).head? = some c → c.isDigit = false := by
  cases kvs with
  | nil =>
    intro c hc
    rw [sM_nil, List.nil_append, List.head?_cons] at hc
    injection hc with hc
    rw [← hc]
    decide
  | cons k v kvs' =>
    intro c hc
    simp only [sM_cons, List.cons_append, List.append_assoc, List.head?_cons] at hc
    injection hc with hc
    rw [← hc]
    decide

theorem printParse_all (fuel : Nat) :
    (∀ (ind : Nat) (v : Json) (w rest : List Char),
      (∀ c ∈ w, isWsChar c = true) → fuelNeeded v ≤ fuel →
      (∀ c, rest.head? = some c → c.isDigit = false) →
      parseVal fuel (w ++ (stringifyAt ind v ++ rest)) = some (v, rest)) ∧
    (∀ (ind indC : Nat) (x : Json) (xs : JsonList) (w rest : List Char),
      (∀ c ∈ w, isWsChar c = true) → fuelNeededList (JsonList.cons x xs) ≤ fuel →
      (∀ c, rest.head? = some c → c.isDigit = false) →
      parseItems fuel
        (w ++ (stringifyAt ind x ++ (stringifyItems ind xs ++
          ('\n' :: (spaces indC ++ (']' :: rest)))))) =
        some (JsonList.cons x xs, rest)) ∧
    (∀ (ind indC : Nat) (k : List Char) (v : Json) (kvs : JsonObj) (w rest : List Char),
      (∀ c ∈ w, isWsChar c = true) → fuelNeededObj (JsonObj.cons k v kvs) ≤ fuel →
      (∀ c, rest.head? = some c → c.isDigit = false) →
      parseMembers fuel
        (w ++ (quoteStr k ++ (':' :: ' ' ::
          (stringifyAt ind v ++ (stringifyMembers ind kvs ++
            ('\n' :: (spaces indC ++ ('}' :: rest)))))))) =
        some (JsonObj.cons k v kvs, rest)) := by
  induction fuel with
  | zero =>
    refine ⟨?_, ?_, ?_⟩
    · intro ind v w rest hw hf hr
      have := fuelNeeded_pos v
      omega
    · intro ind indC x xs w rest hw hf hr
      rw [fNL_cons] at hf
      omega
    · intro ind indC k v kvs w rest hw hf hr
      rw [fNO_cons] at hf
      omega
  | succ f ih =>
    obtain ⟨ihV, ihI, ihM⟩ := ih
    refine ⟨?_, ?_, ?_⟩
    · intro ind v w rest hw hf hr
      cases v with
      | jnull =>
        have hsk : skipWs (w ++ (stringifyAt ind Json.jnull ++ rest)) =
            'n' :: 'u' :: 'l' :: 'l' :: rest := by
          rw [sA_null, skipWs_ws_append w _ hw]
          simp only [List.cons_append, List.nil_append]
          exact skipWs_cons_not_ws 'n' _ (by decide)
        exact pv_null f _ rest hsk
      | jbool b =>
        cases b with
        | true =>
          have hsk : skipWs (w ++ (stringifyAt ind (Json.jbool true) ++ rest)) =
              't' :: 'r' :: 'u' :: 'e' :: rest := by
            rw [sA_true, skipWs_ws_append w _ hw]
            simp only [List.cons_append, List.nil_append]
            exact skipWs_cons_not_ws 't' _ (by decide)
          exact pv_true f _ rest hsk
        | false =>
          have hsk : skipWs (w ++ (stringifyAt ind (Json.jbool false) ++ rest)) =
              'f' :: 'a' :: 'l' :: 's' :: 'e' :: rest := by
            rw [sA_false, skipWs_ws_append w _ hw]
            simp only [List.cons_append, List.nil_append]
            exact skipWs_cons_not_ws 'f' _ (by decide)
          exact pv_false f _ rest hsk
      | jnum n =>
        obtain ⟨c, t0, hct, hc⟩ := intRepr_head n
        have hcws : isWsChar c = false := by
          rcases hc with hd | hm
          · exact isDigit_not_ws c hd
          · rw [hm]; decide
        have hsk : skipWs (w ++ (stringifyAt ind (Json.jnum n) ++ rest)) =
            c :: (t0 ++ rest) := by
          rw [sA_num, hct, skipWs_ws_append w _ hw]
          simp only [List.cons_append]
          exact skipWs_cons_not_ws c _ hcws
        have hnum : parseIntNum (c :: (t0 ++ rest)) = some (n, rest) := by
          rw [← List.cons_append, ← hct]
          exact parseIntNum_print n rest hr
        exact pv_num f _ _ c n rest hsk hc hnum
      | jstr s =>
        have hsk : skipWs (w ++ (stringifyAt ind (Json.jstr s) ++ rest)) =
            '"' :: (escStr s ++ ('"' :: rest)) := by
          rw [sA_str, quoteStr_cons, skipWs_ws_append w _ hw]
          simp only [List.cons_append, List.append_assoc, List.singleton_append]
          exact skipWs_cons_not_ws '"' _ (by decide)
        exact pv_str f _ _ s rest hsk (parseStrBody_print s rest)
      | jarr xs =>
        cases xs with
        | nil =>
          have hsk : skipWs (w ++ (stringifyAt ind (Json.jarr JsonList.nil) ++ rest)) =
              '[' :: (']' :: rest) := by
            rw [sA_arr_nil, skipWs_ws_append w _ hw]
            simp only [List.cons_append, List.nil_append]
            exact skipWs_cons_not_ws '[' _ (by decide)
          exact pv_arr_nil f _ _ rest hsk (skipWs_cons_not_ws ']' rest (by decide))
        | cons x xs' =>
          have hsk : skipWs (w ++ (stringifyAt ind (Json.jarr (JsonList.cons x xs')) ++ rest)) =
              '[' :: ('\n' :: (spaces (ind + 2) ++ (stringifyAt (ind + 2) x ++
                (stringifyItems (ind + 2) xs' ++
                  ('\n' :: (spaces ind ++ (']' :: rest))))))) := by
            rw [sA_arr_cons, skipWs_ws_append w _ hw]
            simp only [List.cons_append, List.append_assoc, List.singleton_append]
            exact skipWs_cons_not_ws '[' _ (by decide)
          obtain ⟨c0, t0, hx, hnws, hne1, hne2⟩ := stringifyAt_head (ind + 2) x
          have h2 : skipWs ('\n' :: (spaces (ind + 2) ++ (stringifyAt (ind + 2) x ++
              (stringifyItems (ind + 2) xs' ++ ('\n' :: (spaces ind ++ (']' :: rest))))))) =
              c0 :: (t0 ++ (stringifyItems (ind + 2) xs' ++
                ('\n' :: (spaces ind ++ (']' :: rest))))) := by
            rw [← List.cons_append, skipWs_ws_append _ _ (nl_spaces_all_ws (ind + 2)), hx]
            simp only [List.cons_append]
            exact skipWs_cons_not_ws c0 _ hnws
          have hfx : fuelNeededList (JsonList.cons x xs') ≤ f := by
            rw [fN_arr] at hf
            omega
          have hitems : parseItems f ('\n' :: (spaces (ind + 2) ++ (stringifyAt (ind + 2) x ++
              (stringifyItems (ind + 2) xs' ++ ('\n' :: (spaces ind ++ (']' :: rest))))))) =
              some (JsonList.cons x xs', rest) := by
            have := ihI (ind + 2) ind x xs' ('\n' :: spaces (ind + 2)) rest
              (nl_spaces_all_ws (ind + 2)) hfx hr
            simp only [List.cons_append] at this
            exact this
          exact pv_arr_cons f _ _ _ _ c0 _ hsk h2 hne1 hitems
      | jobj kvs =>
        cases kvs with
        | nil =>
          have hsk : skipWs (w ++ (stringifyAt ind (Json.jobj JsonObj.nil) ++ rest)) =
              '{' :: ('}' :: rest) := by
            rw [sA_obj_nil, skipWs_ws_append w _ hw]
            simp only [List.cons_append, List.nil_append]
            exact skipWs_cons_not_ws '{' _ (by decide)
          exact pv_obj_nil f _ _ rest hsk (skipWs_cons_not_ws '}' rest (by decide))
        | cons k v' kvs' =>
          have hsk : skipWs (w ++ (stringifyAt ind (Json.jobj (JsonObj.cons k v' kvs')) ++
              rest)) =
              '{' :: ('\n' :: (spaces (ind + 2) ++ (quoteStr k ++ (':' :: ' ' ::
                (stringifyAt (ind + 2) v' ++ (stringifyMembers (ind + 2) kvs' ++
                  ('\n' :: (spaces ind ++ ('}' :: rest))))))))) := by
            rw [sA_obj_cons, skipWs_ws_append w _ hw]
            simp only [List.cons_append, List.append_assoc, List.singleton_append]
            exact skipWs_cons_not_ws '{' _ (by decide)
          have h2 : skipWs ('\n' :: (spaces (ind + 2) ++ (quoteStr k ++ (':' :: ' ' ::
              (stringifyAt (ind + 2) v' ++ (stringifyMembers (ind + 2) kvs' ++
                ('\n' :: (spaces ind ++ ('}' :: rest))))))))) =
              '"' :: (escStr k ++ ('"' :: (':' :: ' ' ::
                (stringifyAt (ind + 2) v' ++ (stringifyMembers (ind + 2) kvs' ++
                  ('\n' :: (spaces ind ++ ('}' :: rest)))))))) := by
            rw [← List.cons_append, skipWs_ws_append _ _ (nl_spaces_all_ws (ind + 2)),
              quoteStr_cons]
            simp only [List.cons_append, List.append_assoc, List.singleton_append]
            exact skipWs_cons_not_ws '"' _ (by decide)
          have hfm : fuelNeededObj (JsonObj.cons k v' kvs') ≤ f := by
            rw [fN_obj] at hf
            omega
          have hmem : parseMembers f ('\n' :: (spaces (ind + 2) ++ (quoteStr k ++
              (':' :: ' ' :: (stringifyAt (ind + 2) v' ++ (stringifyMembers (ind + 2) kvs' ++
                ('\n' :: (spaces ind ++ ('}' :: rest))))))))) =
              some (JsonObj.cons k v' kvs', rest) := by
            have := ihM (ind + 2) ind k v' kvs' ('\n' :: spaces (ind + 2)) rest
              (nl_spaces_all_ws (ind + 2)) hfm hr
            simp only [List.cons_append] at this
            exact this
          exact pv_obj_cons f _ _ _ _ '"' _ hsk h2 (by decide) hmem
    · intro ind indC x xs w rest hw hf hr
      have hfx : fuelNeeded x ≤ f := by
        rw [fNL_cons] at hf
        omega
      have hval : parseVal f (w ++ (stringifyAt ind x ++ (stringifyItems ind xs ++
          ('\n' :: (spaces indC ++ (']' :: rest)))))) =
          some (x, stringifyItems ind xs ++ ('\n' :: (spaces indC ++ (']' :: rest)))) :=
        ihV ind x w _ hw hfx (rg_items ind xs _)
      cases xs with
      | nil =>
        have h2 : skipWs (stringifyItems ind JsonList.nil ++
            ('\n' :: (spaces indC ++ (']' :: rest)))) = ']' :: rest := by
          rw [sI_nil, List.nil_append, ← List.cons_append,
            skipWs_ws_append _ _ (nl_spaces_all_ws indC)]
          exact skipWs_cons_not_ws ']' rest (by decide)
        exact pi_last f _ _ rest x hval h2
      | cons y ys =>
        have h2 : skipWs (stringifyItems ind (JsonList.cons y ys) ++
            ('\n' :: (spaces indC ++ (']' :: rest)))) =
            ',' :: ('\n' :: (spaces ind ++ (stringifyAt ind y ++ (stringifyItems ind ys ++
              ('\n' :: (spaces indC ++ (']' :: rest))))))) := by
          rw [sI_cons]
          simp only [List.cons_append, List.append_assoc]
          exact skipWs_cons_not_ws ',' _ (by decide)
        have hfy : fuelNeededList (JsonList.cons y ys) ≤ f := by
          rw [fNL_cons, fNL_cons] at hf
          rw [fNL_cons]
          omega
        have h3 : parseItems f ('\n' :: (spaces ind ++ (stringifyAt ind y ++
            (stringifyItems ind ys ++ ('\n' :: (spaces indC ++ (']' :: rest))))))) =
            some (JsonList.cons y ys, rest) := by
          have := ihI ind indC y ys ('\n' :: spaces ind) rest (nl_spaces_all_ws ind) hfy hr
          simp only [List.cons_append] at this
          exact this
        exact pi_cons f _ _ _ _ x _ hval h2 h3
    · intro ind indC k v kvs w rest hw hf hr
      have hsk : skipWs (w ++ (quoteStr k ++ (':' :: ' ' ::
          (stringifyAt ind v ++ (stringifyMembers ind kvs ++
            ('\n' :: (spaces indC ++ ('}' :: rest)))))))) =
          '"' :: (escStr k ++ ('"' :: (':' :: ' ' ::
            (stringifyAt ind v ++ (stringifyMembers ind kvs ++
              ('\n' :: (spaces indC ++ ('}' :: rest)))))))) := by
        rw [quoteStr_cons, skipWs_ws_append w _ hw]
        simp only [List.cons_append, List.append_assoc, List.singleton_append]
        exact skipWs_cons_not_ws '"' _ (by decide)
      have h1 : parseStrBody (escStr k ++ ('"' :: (':' :: ' ' ::
          (stringifyAt ind v ++ (stringifyMembers ind kvs ++
            ('\n' :: (spaces indC ++ ('}' :: rest)))))))) =
          some (k, ':' :: ' ' :: (stringifyAt ind v ++ (stringifyMembers ind kvs ++
            ('\n' :: (spaces indC ++ ('}' :: rest)))))) :=
        parseStrBody_print k _
      have h2 : skipWs (':' :: ' ' :: (stringifyAt ind v ++ (stringifyMembers ind kvs ++
          ('\n' :: (spaces indC ++ ('}' :: rest)))))) =
          ':' :: (' ' :: (stringifyAt ind v ++ (stringifyMembers ind kvs ++
            ('\n' :: (spaces indC ++ ('}' :: rest)))))) :=
        skipWs_cons_not_ws ':' _ (by decide)
      have hfv : fuelNeeded v ≤ f := by
        rw [fNO_cons] at hf
        omega
      have h3 : parseVal f (' ' :: (stringifyAt ind v ++ (stringifyMembers ind kvs ++
          ('\n' :: (spaces indC ++ ('}' :: rest)))))) =
          some (v, stringifyMembers ind kvs ++ ('\n' :: (spaces indC ++ ('}' :: rest)))) := by
        have := ihV ind v [' ']
          (stringifyMembers ind kvs ++ ('\n' :: (spaces indC ++ ('}' :: rest))))
          (by decide) hfv (rg_members ind kvs (spaces indC ++ ('}' :: rest)))
        simp only [List.singleton_append] at this
        exact this
      cases kvs with
      | nil =>
        have h4 : skipWs (stringifyMembers ind JsonObj.nil ++
            ('\n' :: (spaces indC ++ ('}' :: rest)))) = '}' :: rest := by
          rw [sM_nil, List.nil_append, ← List.cons_append,
            skipWs_ws_append _ _ (nl_spaces_all_ws indC)]
          exact skipWs_cons_not_ws '}' rest (by decide)
        exact pm_last f _ _ _ _ _ _ _ v hsk h1 h2 h3 h4
      | cons k2 v2 kvs2 =>
        have h4 : skipWs (stringifyMembers ind (JsonObj.cons k2 v2 kvs2) ++
            ('\n' :: (spaces indC ++ ('}' :: rest)))) =
            ',' :: ('\n' :: (spaces ind ++ (quoteStr k2 ++ (':' :: ' ' ::
              (stringifyAt ind v2 ++ (stringifyMembers ind kvs2 ++
                ('\n' :: (spaces indC ++ ('}' :: rest))))))))) := by
          rw [sM_cons]
          simp only [List.cons_append, List.append_assoc]
          exact skipWs_cons_not_ws ',' _ (by decide)
        have hfm2 : fuelNeededObj (JsonObj.cons k2 v2 kvs2) ≤ f := by
          rw [fNO_cons, fNO_cons] at hf
          rw [fNO_cons]
          omega
        have h5 : parseMembers f ('\n' :: (spaces ind ++ (quoteStr k2 ++ (':' :: ' ' ::
            (stringifyAt ind v2 ++ (stringifyMembers ind kvs2 ++
              ('\n' :: (spaces indC ++ ('}' :: rest))))))))) =
            some (JsonObj.cons k2 v2 kvs2, rest) := by
          have := ihM ind indC k2 v2 kvs2 ('\n' :: spaces ind) rest (nl_spaces_all_ws ind)
            hfm2 hr
          simp only [List.cons_append] at this
          exact this
        exact pm_cons f _ _ _ _ _ _ _ _ v _ hsk h1 h2 h3 h4 h5

mutual

theorem fuelNeeded_le (ind : Nat) (v : Json) : fuelNeeded v ≤ (stringifyAt ind v).length := by
  cases v with
  | jnull => rw [fN_null, sA_null]; decide
  | jbool b =>
    cases b with
    | true => rw [fN_bool, sA_true]; decide
    | false => rw [fN_bool, sA_false]; decide
  | jnum n =>
    rw [fN_num, sA_num]
    obtain ⟨c, t, hct, _⟩ := intRepr_head n
    rw [hct, List.length_cons]
    omega
  | jstr s =>
    rw [fN_str, sA_str, quoteStr_cons, List.length_cons]
    omega
  | jarr xs =>
    cases xs with
    | nil => rw [fN_arr, fNL_nil, sA_arr_nil]; decide
    | cons x xs' =>
      rw [fN_arr, fNL_cons, sA_arr_cons]
      have h1 := fuelNeeded_le (ind + 2) x
      have h2 := fuelNeededList_le (ind + 2) xs'
      simp only [List.length_cons, List.length_append]
      omega
  | jobj kvs =>
    cases kvs with
    | nil => rw [fN_obj, fNO_nil, sA_obj_nil]; decide
    | cons k v' kvs' =>
      rw [fN_obj, fNO_cons, sA_obj_cons]
      have h1 := fuelNeeded_le (ind + 2) v'
      have h2 := fuelNeededObj_le (ind + 2) kvs'
      simp only [List.length_cons, List.length_append]
      omega

theorem fuelNeededList_le (ind : Nat) (xs : JsonList) :
    fuelNeededList xs ≤ (stringifyItems ind xs).length := by
  cases xs with
  | nil => rw [fNL_nil, sI_nil]; decide
  | cons x xs' =>
    rw [fNL_cons, sI_cons]
    have h1 := fuelNeeded_le ind x
    have h2 := fuelNeededList_le ind xs'
    simp only [List.length_cons, List.length_append]
    omega

theorem fuelNeededObj_le (ind : Nat) (kvs : JsonObj) :
    fuelNeededObj kvs ≤ (stringifyMembers ind kvs).length := by
  cases kvs with
  | nil => rw [fNO_nil, sM_nil]; decide
  | cons k v' kvs' =>
    rw [fNO_cons, sM_cons]
    have h1 := fuelNeeded_le ind v'
    have h2 := fuelNeededObj_le ind kvs'
    simp only [List.length_cons, List.length_append]
    omega

end

theorem jsonParse_print (v : Json) : jsonParse (stringify2 v ++ ['\n']) = some v := by
  have hfu : fuelNeeded v ≤ (stringify2 v ++ ['\n']).length + 1 := by
    have := fuelNeeded_le 0 v
    rw [stringify2, List.length_append]
    omega
  have hr : ∀ c, (['\n'] : List Char).head? = some c → c.isDigit = false := by
    intro c hc
    rw [List.head?_cons] at hc
    injection hc with hc
    rw [← hc]
    decide
  have hpv := (printParse_all ((stringify2 v ++ ['\n']).length + 1)).1 0 v [] ['\n']
    (by intro c hc; simp at hc) hfu hr
  simp only [List.nil_append] at hpv
  rw [stringify2] at hpv
  rw [jsonParse, stringify2, hpv]
  rfl

theorem findIdx?_shift {α : Type} (p : α → Bool) : ∀ (xs : List α) (i : Nat),
    List.findIdx? p xs (i + 1) = (List.findIdx? p xs i).map (· + 1) := by
  intro xs
  induction xs with
  | nil => intro i; rfl
  | cons x t ih =>
    intro i
    rw [List.findIdx?_cons, List.findIdx?_cons]
    by_cases hp : p x = true
    · rw [if_pos hp, if_pos hp]
      rfl
    · rw [if_neg hp, if_neg hp, ih (i + 1), ih i]

theorem fsRead_fsWrite (fs : FileSys) (p : String) (c : List Char) :
    fsRead (fsWrite fs p c) p = some c := by
  induction fs with
  | nil =>
    rw [fsWrite]
    rw [show List.findIdx? (fun kv => kv.1 = p) ([] : FileSys) = none from rfl]
    dsimp only
    rw [fsRead, List.find?_cons_of_pos _ (by simp)]
  | cons kv t ih =>
    rw [fsWrite, List.findIdx?_cons]
    by_cases hkv : kv.1 = p
    · rw [if_pos (by simp [hkv])]
      dsimp only
      rw [List.set_cons_zero, fsRead, List.find?_cons_of_pos _ (by simp)]
    · rw [if_neg (by simp [hkv]), findIdx?_shift]
      cases hfind : List.findIdx? (fun kv => kv.1 = p) t with
      | none =>
        rw [Option.map_none']
        dsimp only
        rw [fsRead, List.find?_cons_of_pos _ (by simp)]
      | some j =>
        rw [Option.map_some']
        dsimp only
        rw [List.set_cons_succ, fsRead, List.find?_cons_of_neg _ (by simp [hkv])]
        have ih' : fsRead (t.set j (p, c)) p = some c := by
          rw [fsWrite, hfind] at ih
          exact ih
        exact ih'

/-- Claim C8: writing a valid PRD (an object carrying a `userStories`
array) with `savePRD` to the primary candidate path and reading it back
with `loadPRD` returns the same JSON value, field for field, with object
members in their original insertion order. -/
theorem prd_save_load_roundtrip (fs : FileSys) (cwd : String) (prd : Json)
    (hv : isValidPRDJson prd = true) :
    loadPRD (savePRD fs (cwd ++ "/prd.json") prd) cwd =
      some (cwd ++ "/prd.json", prd) := by
  rw [loadPRD, prdCandidates]
  simp only [List.foldr_cons, List.foldr_nil]
  rw [savePRD, fsRead_fsWrite]
  dsimp only
  rw [jsonParse_print]
  dsimp only
  rw [if_pos hv]

/-- Claim C8 (witness): the round trip at a concrete valid PRD on an
empty file system. -/
theorem prd_save_load_roundtrip_witness :
    isValidPRDJson samplePRDJson = true ∧
      loadPRD (savePRD ([] : FileSys) ("/w" ++ "/prd.json") samplePRDJson) "/w" =
        some ("/w" ++ "/prd.json", samplePRDJson) :=
  ⟨by decide, prd_save_load_roundtrip ([] : FileSys) "/w" samplePRDJson (by decide)⟩
